import Mathlib

/-!
Verification of the resolution engine of the php-accessor-vscode extension.

The TypeScript source (`AccessorNavigator`, second revision, and the type
inference pipeline of the first revision) is shallowly embedded here.
Source text, file paths and symbol names are modelled as lists of
characters (`Str`); the file system is an association list from paths to
contents; the in-memory caches are association lists threaded in
state-passing style. JavaScript string/regex operations are rendered as
executable character-level scanners.

The file is organised as definitions first, then theorems.
-/

namespace PhpAccessor

/-- Source text / identifiers: JS strings as lists of characters. -/
abbrev Str := List Char

/-- Convert a Lean string literal to the embedding's string type. -/
def strOf (s : String) : Str := s.toList

/-- The character class of the JS regex `[A-Z]`. -/
def isAsciiUpper (c : Char) : Bool := 65 ≤ c.toNat && c.toNat ≤ 90

/-- The character class of the JS regex `[a-z]`. -/
def isAsciiLower (c : Char) : Bool := 97 ≤ c.toNat && c.toNat ≤ 122

/-- `s.charAt(0).toLowerCase() + s.slice(1)` (empty string maps to itself). -/
def lowerFirst : Str → Str
  | [] => []
  | c :: r => c.toLower :: r

/-- `s.charAt(0).toUpperCase() + s.slice(1)` (empty string maps to itself). -/
def upperFirst : Str → Str
  | [] => []
  | c :: r => c.toUpper :: r

/-- `str.replace(/([A-Z])/g, '_$1')`: insert an underscore before each
ASCII uppercase letter. -/
def snakeExpand : Str → Str
  | [] => []
  | c :: r => if isAsciiUpper c then '_' :: c :: snakeExpand r else c :: snakeExpand r

/-- `str.replace(/^_/, '')`: drop a single leading underscore. -/
def dropLeadUnderscore : Str → Str
  | [] => []
  | c :: r => if c = '_' then r else c :: r

/-- `camelToSnakeCase` (part_001:2378): camel case to snake case,
`str.replace(/([A-Z])/g, '_$1').toLowerCase().replace(/^_/, '')`. -/
def camelToSnakeCase (s : Str) : Str :=
  dropLeadUnderscore ((snakeExpand s).map Char.toLower)

/-- Deduplication keeping first occurrences, as JS `[...new Set(xs)]`;
`seen` accumulates the elements already emitted. -/
def dedupKeep {α : Type} [DecidableEq α] (seen : List α) : List α → List α
  | [] => []
  | x :: r => if x ∈ seen then dedupKeep seen r else x :: dedupKeep (x :: seen) r

/-- `[...new Set(xs)]`: insertion-order deduplication. -/
def insertionDedup {α : Type} [DecidableEq α] (l : List α) : List α :=
  dedupKeep [] l

/-- `convertPropertyNameByConvention` (part_001:2337): strip the 3-character
`get`/`set` prefix and adjust the case of the first letter according to the
naming-convention code (1 = NONE, 2 = LOWER_CAMEL_CASE, 3 = UPPER_CAMEL_CASE,
anything else treated as lower camel). -/
def convertPropertyNameByConvention (methodName : Str) (convention : Nat) : Str :=
  let propertyBase := methodName.drop 3
  match convention with
  | 1 => lowerFirst propertyBase
  | 2 => lowerFirst propertyBase
  | 3 => upperFirst propertyBase
  | _ => lowerFirst propertyBase

/-- `generatePropertyNameVariants` (part_001:2359): the convention-derived
name, then the raw lower-camel fallback, then the snake_case fallback,
deduplicated preserving order. -/
def generatePropertyNameVariants (methodName : Str) (convention : Nat) : List Str :=
  let propertyBase := methodName.drop 3
  insertionDedup [convertPropertyNameByConvention methodName convention,
                  lowerFirst propertyBase,
                  camelToSnakeCase propertyBase]

/-! ### Scanner primitives (JS string and regex operations) -/

/-- The character class of the JS regex `\s` (common cases). -/
def isJsSpace (c : Char) : Bool :=
  c = ' ' || c = '\t' || c = '\n' || c = '\r' || c.toNat = 11 || c.toNat = 12

/-- The character class of the JS regex `\w`. -/
def isWordChar (c : Char) : Bool := c.isAlphanum || c = '_'

/-- The character class of the JS regex `[\w\\]` used for type names. -/
def isTypeChar (c : Char) : Bool := isWordChar c || c = '\\'

/-- JS `s.includes(sub)`. -/
def containsSub (s sub : Str) : Bool :=
  match s with
  | [] => sub.isEmpty
  | _ :: r => sub.isPrefixOf s || containsSub r sub

/-- Consume an exact literal, returning the rest. -/
def dropLit (lit s : Str) : Option Str :=
  if lit.isPrefixOf s then some (s.drop lit.length) else none

/-- `\s*`: skip any whitespace. -/
def skipWs (s : Str) : Str := s.dropWhile isJsSpace

/-- `\s+`: skip at least one whitespace character. -/
def skipWs1 (s : Str) : Option Str :=
  match s with
  | [] => none
  | c :: r => if isJsSpace c then some (skipWs r) else none

/-- JS `s.trim()`. -/
def jsTrim (s : Str) : Str :=
  ((s.dropWhile isJsSpace).reverse.dropWhile isJsSpace).reverse

/-- JS `s.toLowerCase()` (basic latin). -/
def toLowerStr (s : Str) : Str := s.map Char.toLower

/-- Does the predicate hold of some suffix?  Used to run a
match-at-position function at every position, leftmost first. -/
def existsAt (f : Str → Bool) : Str → Bool
  | [] => f []
  | c :: r => f (c :: r) || existsAt f r

/-- Index of the leftmost position whose suffix satisfies `f`
(the JS `regex.exec(s).index` of an anchored matcher). -/
def findIdx (f : Str → Bool) : Str → Option Nat
  | [] => if f [] then some 0 else none
  | c :: r => if f (c :: r) then some 0 else (findIdx f r).map (· + 1)

/-! ### File-system model and path operations -/

/-- The file system: an association list from absolute paths to contents.
`fs.readFileSync`/`openTextDocument` succeed exactly on listed paths. -/
abbrev FS := List (Str × Str)

/-- Read a file's content (if present). -/
def fsRead (fs : FS) (p : Str) : Option Str :=
  match fs with
  | [] => none
  | (q, c) :: r => if q = p then some c else fsRead r p

/-- `fs.existsSync` for files. -/
def fsExists (fs : FS) (p : Str) : Bool := (fsRead fs p).isSome

/-- `path.join`: segments joined by `/`, empty segments skipped. -/
def joinPath (parts : List Str) : Str :=
  ((parts.filter (fun p => !p.isEmpty)).intersperse (strOf "/")).flatten

/-- `path.dirname`. -/
def dirname (p : Str) : Str :=
  let r := p.reverse.dropWhile (fun c => ¬ c = '/')
  match r with
  | [] => strOf "."
  | _ :: rest => if rest = [] then strOf "/" else rest.reverse

/-- `path.basename`. -/
def baseName (p : Str) : Str := (p.reverse.takeWhile (fun c => ¬ c = '/')).reverse

/-- `path.basename(p, '.php')`. -/
def baseNamePhp (p : Str) : Str :=
  let b := baseName p
  if (strOf ".php").isSuffixOf b then b.take (b.length - 4) else b

/-- `fs.existsSync` for directories: some listed file lives below the
directory. -/
def dirExists (fs : FS) (d : Str) : Bool :=
  fs.any (fun e => (d ++ strOf "/").isPrefixOf e.1)

/-- Namespace segments joined by a backslash (`segments.join('\\')`). -/
def joinBackslash (parts : List Str) : Str :=
  (parts.intersperse (strOf "\\")).flatten

/-! ### Class-name resolution (`findClassFileFromNamespaceFast`, part_001:3232) -/

/-- The three plain-`includes` class checks of part_001:3279-3281. -/
def includesClassDecl (content className : Str) : Bool :=
  containsSub content (strOf "class " ++ className) ||
  containsSub content (strOf "abstract class " ++ className) ||
  containsSub content (strOf "final class " ++ className)

/-- `class\s+CLASS\b` anchored at the start of `s`. -/
def classHeadAt (className s : Str) : Bool :=
  match dropLit (strOf "class") s with
  | none => false
  | some s1 =>
    match skipWs1 s1 with
    | none => false
    | some s2 =>
      match dropLit className s2 with
      | none => false
      | some s3 =>
        match s3 with
        | [] => true
        | c :: _ => !isWordChar c

/-- `MOD\s+class\s+CLASS\b` anchored at the start of `s` (`MOD` is
`abstract` or `final`). -/
def modClassHeadAt (mod className s : Str) : Bool :=
  match dropLit mod s with
  | none => false
  | some s1 =>
    match skipWs1 s1 with
    | none => false
    | some s2 => classHeadAt className s2

/-- `namespace\s+NS\b` anchored at the start of `s`. -/
def namespaceHeadAt (ns s : Str) : Bool :=
  match dropLit (strOf "namespace") s with
  | none => false
  | some s1 =>
    match skipWs1 s1 with
    | none => false
    | some s2 =>
      match dropLit ns s2 with
      | none => false
      | some s3 =>
        match s3 with
        | [] => true
        | c :: _ => !isWordChar c

/-- First of the direct-layout candidate paths that exists and whose content
passes the plain-`includes` class check (part_001:3273-3289); a failed read
skips to the next candidate. -/
def firstExistingVerified (fs : FS) (className : Str) : List Str → Option Str
  | [] => none
  | p :: r =>
    match fsRead fs p with
    | some content =>
      if includesClassDecl content className then some p
      else firstExistingVerified fs className r
    | none => firstExistingVerified fs className r

/-- The exclusion glob `**/vendor/**/.php-accessor/**` (approximated by
segment containment). -/
def isExcludedVendorProxy (p : Str) : Bool :=
  containsSub p (strOf "/vendor/") && containsSub p (strOf "/.php-accessor/")

/-- `vscode.workspace.findFiles('**/NAME', exclude, limit)`: listed files
whose basename is `base`, in file-system order. -/
def wsFindFiles (fs : FS) (base : Str) (limit : Nat) : List Str :=
  ((fs.map Prod.fst).filter
    (fun p => baseName p = base && !isExcludedVendorProxy p)).take limit

/-- `vscode.workspace.findFiles('**/*CLASS*.php', exclude, limit)`. -/
def wsFindFilesFuzzy (fs : FS) (className : Str) (limit : Nat) : List Str :=
  ((fs.map Prod.fst).filter
    (fun p => (strOf ".php").isSuffixOf (baseName p) &&
              containsSub (baseNamePhp p) className &&
              !isExcludedVendorProxy p)).take limit

/-- Verification of a glob hit (part_001:3299-3326): regex class pattern and,
when a namespace is required, the namespace pattern; a failed read skips
the file. -/
def verifyFoundFile (fs : FS) (className : Str) (nsSegs : List Str) (p : Str) : Bool :=
  match fsRead fs p with
  | none => false
  | some content =>
    (existsAt (classHeadAt className) content ||
     existsAt (modClassHeadAt (strOf "abstract") className) content ||
     existsAt (modClassHeadAt (strOf "final") className) content) &&
    (if 0 < nsSegs.length then
       existsAt (namespaceHeadAt (joinBackslash nsSegs)) content
     else true)

/-- First glob hit passing `verifyFoundFile`. -/
def firstVerified (fs : FS) (className : Str) (nsSegs : List Str) : List Str → Option Str
  | [] => none
  | p :: r =>
    if verifyFoundFile fs className nsSegs p then some p
    else firstVerified fs className nsSegs r

/-- First fuzzy hit whose content passes the plain-`includes` class check
(part_001:3337-3348). -/
def firstIncluded (fs : FS) (className : Str) : List Str → Option Str
  | [] => none
  | p :: r =>
    match fsRead fs p with
    | none => firstIncluded fs className r
    | some content =>
      if includesClassDecl content className then some p
      else firstIncluded fs className r

/-- `findClassFileFromNamespaceFast` (part_001:3232-3356): PSR-4 style direct
paths, then a workspace glob for `CLASS.php`, then a fuzzy glob. `root` is
the single workspace folder. -/
def findClassFileFromNamespaceFast (fs : FS) (root : Str) (ns : Str) : Option Str :=
  let segsAll := ns.splitOn '\\'
  let className := (segsAll.getLast?).getD []
  let namespaceSegments := segsAll.dropLast
  let phpName := className ++ strOf ".php"
  let possiblePaths : List Str :=
    [joinPath ([root, strOf "app"] ++ namespaceSegments ++ [phpName]),
     joinPath ([root, strOf "src"] ++ namespaceSegments ++ [phpName]),
     joinPath ([root, toLowerStr ((namespaceSegments.head?).getD [])] ++
               namespaceSegments.tail ++ [phpName]),
     joinPath ([root, strOf "app"] ++ namespaceSegments.map toLowerStr ++ [phpName]),
     joinPath [root, phpName],
     joinPath [root, strOf "app", phpName],
     joinPath [root, strOf "src", phpName],
     joinPath [root, strOf "app", strOf "Models", phpName],
     joinPath [root, strOf "app", strOf "Entity", phpName],
     joinPath [root, strOf "app", strOf "Domain", phpName],
     joinPath [root, strOf "src", strOf "Models", phpName],
     joinPath [root, strOf "src", strOf "Entity", phpName],
     joinPath [root, strOf "src", strOf "Domain", phpName]]
  match firstExistingVerified fs className possiblePaths with
  | some p => some p
  | none =>
    let files := wsFindFiles fs phpName 10
    match firstVerified fs className namespaceSegments files with
    | some p => some p
    | none =>
      if files.length = 0 then
        firstIncluded fs className (wsFindFilesFuzzy fs className 5)
      else none

/-! ### Namespace-to-file cache (`findClassFileFromNamespaceWithCache`,
part_001:4377-4394) -/

/-- `this.classFileCache`: a JS `Map<string, string | null>` in insertion
order, oldest first. -/
abbrev ClassFileCache := List (Str × Option Str)

/-- `Map.has`/`Map.get` combined: the stored value, if the key is present. -/
def cacheLookup (cache : ClassFileCache) (k : Str) : Option (Option Str) :=
  match cache with
  | [] => none
  | (q, v) :: r => if q = k then some v else cacheLookup r k

/-- `findClassFileFromNamespaceWithCache` (part_001:4377): consult the cache,
otherwise resolve, store, and if the size exceeds 100 delete the first
(oldest-inserted) key. -/
def findClassFileFromNamespaceWithCache (fs : FS) (root : Str)
    (cache : ClassFileCache) (ns : Str) : Option Str × ClassFileCache :=
  match cacheLookup cache ns with
  | some v => (v, cache)
  | none =>
    let result := findClassFileFromNamespaceFast fs root ns
    let c1 := cache ++ [(ns, result)]
    let c2 := if 100 < c1.length then c1.drop 1 else c1
    (result, c2)

/-- A sequence of lookups through the cache (used to state boundedness over
any insertion sequence). -/
def cacheInsertAll (fs : FS) (root : Str) : List Str → ClassFileCache → ClassFileCache
  | [], cache => cache
  | ns :: r, cache =>
    cacheInsertAll fs root r (findClassFileFromNamespaceWithCache fs root cache ns).2

/-! ### Naming-convention annotation (`parseNamingConvention`, part_001:2307) -/

/-- After the captured word of the `#[Data(...)]` regex: `[^)]*\)]` — the
first `)` at or beyond this point must be followed by `]`. -/
def closeParenBracket : Str → Bool
  | [] => false
  | ')' :: r =>
    match r with
    | ']' :: _ => true
    | _ => false
  | _ :: r => closeParenBracket r

/-- `namingConvention:` found: `\s*NamingConvention::(\w+)[^)]*\)]`. -/
def afterConv (s : Str) : Option Str :=
  let s1 := skipWs s
  match dropLit (strOf "NamingConvention::") s1 with
  | none => none
  | some s2 =>
    let cap := s2.takeWhile isWordChar
    if cap.isEmpty then none
    else if closeParenBracket (s2.dropWhile isWordChar) then some cap
    else none

/-- Inside `#[Data(`: look for `namingConvention:` without crossing a `)`
(the `[^)]*` of the regex). -/
def scanConv : Str → Option Str
  | [] => none
  | c :: r =>
    if (strOf "namingConvention:").isPrefixOf (c :: r) then
      afterConv ((c :: r).drop 17)
    else if c = ')' then none
    else scanConv r

/-- Leftmost match of
`#\[Data\([^)]*namingConvention:\s*NamingConvention::(\w+)[^)]*\)]`,
returning the captured word (part_001:2310). -/
def findDataConventionWord : Str → Option Str
  | [] => none
  | c :: r =>
    if (strOf "#[Data(").isPrefixOf (c :: r) then
      match scanConv ((c :: r).drop 7) with
      | some cap => some cap
      | none => findDataConventionWord r
    else findDataConventionWord r

/-- `parseNamingConvention` (part_001:2307-2332): the `#[Data(...)]`
annotation decides (NONE = 1, LOWER_CAMEL_CASE = 2, UPPER_CAMEL_CASE = 3,
unknown word = 2); else `#[HyperfData]` gives 2; else 1 (NONE). -/
def parseNamingConvention (classContent : Str) : Nat :=
  match findDataConventionWord classContent with
  | some conv =>
      if conv = strOf "NONE" then 1
      else if conv = strOf "LOWER_CAMEL_CASE" then 2
      else if conv = strOf "UPPER_CAMEL_CASE" then 3
      else 2
  | none =>
      if containsSub classContent (strOf "#[HyperfData]") then 2
      else 1

/-- Step 4 of `handleProxyFileNavigation` (part_001:2058-2074): the naming
convention is re-parsed from the original class file's current content on
every call; only a failed read falls back to the default 2. -/
def proxyConventionOf (fs : FS) (originalClassFile : Str) : Nat :=
  match fsRead fs originalClassFile with
  | some content => parseNamingConvention content
  | none => 2

/-! ### Property locator (`findPropertyInFile`, part_001:3632-3802) -/

/-- A resolved location: file path and character offset
(`vscode.Location` with the position given by `positionAt(globalIndex)`). -/
abbrev Loc := Str × Nat

/-- The word-boundary `\b` after a word: the next character must not be a
word character (or the string ends). -/
def wordBoundary : Str → Bool
  | [] => true
  | c :: _ => !isWordChar c

/-- Opening brace character (code point 123). -/
def braceOpen : Char := Char.ofNat 123

/-- Closing brace character (code point 125). -/
def braceClose : Char := Char.ofNat 125

/-- The brace scan of part_001:3697-3716: starting at absolute index `i`
(the class-declaration index), find the absolute index of the brace that
returns the depth to zero after the first opening brace. -/
def braceScan : Str → Nat → Int → Bool → Option Nat
  | [], _, _, _ => none
  | c :: r, i, count, inside =>
    if c = braceOpen then braceScan r (i + 1) (count + 1) true
    else if c = braceClose then
      (if inside ∧ count - 1 = 0 then some i
       else braceScan r (i + 1) (count - 1) inside)
    else braceScan r (i + 1) count inside

/-- The class span `[classStart, classEnd]` of part_001:3690-3716: the index
of the leftmost `class\s+CLASS\b` and the balancing closing brace. `none`
when the header is absent or the scan never balances (then the search
degrades to the whole file). -/
def extractClassSpan (content className : Str) : Option (Nat × Nat) :=
  match findIdx (classHeadAt className) content with
  | none => none
  | some cs =>
    match braceScan (content.drop cs) cs 0 false with
    | none => none
    | some ce => if cs < ce then some (cs, ce) else none

/-- `class\s+\w+\s+extends\s+CLASS\b` anchored at `s` (part_001:3670). -/
def classExtendsHeadAt (className s : Str) : Bool :=
  match dropLit (strOf "class") s with
  | none => false
  | some s1 =>
    match skipWs1 s1 with
    | none => false
    | some s2 =>
      let w := s2.takeWhile isWordChar
      if w.isEmpty then false
      else
        match skipWs1 (s2.dropWhile isWordChar) with
        | none => false
        | some s3 =>
          match dropLit (strOf "extends") s3 with
          | none => false
          | some s4 =>
            match skipWs1 s4 with
            | none => false
            | some s5 =>
              match dropLit className s5 with
              | none => false
              | some s6 => wordBoundary s6

/-- `class\s+CLASS\s+implements\b` anchored at `s` (part_001:3672). -/
def classImplementsHeadAt (className s : Str) : Bool :=
  match dropLit (strOf "class") s with
  | none => false
  | some s1 =>
    match skipWs1 s1 with
    | none => false
    | some s2 =>
      match dropLit className s2 with
      | none => false
      | some s3 =>
        match skipWs1 s3 with
        | none => false
        | some s4 =>
          match dropLit (strOf "implements") s4 with
          | none => false
          | some s5 => wordBoundary s5

/-- The class-declaration check of part_001:3666-3687: one of the four
patterns matches somewhere in the file. -/
def classFound (content className : Str) : Bool :=
  existsAt (classHeadAt className) content ||
  existsAt (classExtendsHeadAt className) content ||
  existsAt (classImplementsHeadAt className) content ||
  existsAt (modClassHeadAt (strOf "abstract") className) content ||
  existsAt (modClassHeadAt (strOf "final") className) content

/-- `(public|protected|private)` anchored at `s`. -/
def visAt (s : Str) : Option Str :=
  match dropLit (strOf "public") s with
  | some r => some r
  | none =>
    match dropLit (strOf "protected") s with
    | some r => some r
    | none => dropLit (strOf "private") s

/-- `\$PROP` then a continuation. -/
def dollarThen (prop : Str) (tail : Str → Bool) (s : Str) : Bool :=
  match dropLit ('$' :: prop) s with
  | none => false
  | some r => tail r

/-- `\w+\s+` (an optional modifier/type word). -/
def wordWs (s : Str) : Option Str :=
  let w := s.takeWhile isWordChar
  if w.isEmpty then none else skipWs1 (s.dropWhile isWordChar)

/-- `readonly\s+`. -/
def readonlyWs (s : Str) : Option Str :=
  match dropLit (strOf "readonly") s with
  | none => none
  | some r => skipWs1 r

/-- `(?:readonly\s+)?(?:\w+\s+)?\$PROP` followed by `tail`, with the
optional groups tried in every combination (regex backtracking). -/
def afterVisProp (prop : Str) (tail : Str → Bool) (s : Str) : Bool :=
  dollarThen prop tail s ||
  (match wordWs s with
   | some s2 => dollarThen prop tail s2
   | none => false) ||
  (match readonlyWs s with
   | some s1 =>
     dollarThen prop tail s1 ||
     (match wordWs s1 with
      | some s2 => dollarThen prop tail s2
      | none => false)
   | none => false)

/-- Property pattern 1 (part_001:3725):
`(public|protected|private)\s+(?:readonly\s+)?(?:\w+\s+)?\$PROP\b`. -/
def pat1At (prop s : Str) : Bool :=
  match visAt s with
  | none => false
  | some s0 =>
    match skipWs1 s0 with
    | none => false
    | some s1 => afterVisProp prop wordBoundary s1

/-- After the `*/` of a doc comment: `\s+` then pattern 1. -/
def docTail (prop s : Str) : Bool :=
  match skipWs1 s with
  | none => false
  | some s1 => pat1At prop s1

/-- `[\s\S]*?\*/` then the doc tail: try each `*/` occurrence in order. -/
def docScan (prop : Str) : Str → Bool
  | [] => false
  | c :: r =>
    (if (strOf "*/").isPrefixOf (c :: r) then docTail prop ((c :: r).drop 2) else false) ||
    docScan prop r

/-- Property pattern 2 (part_001:3727):
`/\*\*[\s\S]*?\*/\s+` followed by pattern 1. -/
def pat2At (prop s : Str) : Bool :=
  match dropLit (strOf "/**") s with
  | none => false
  | some r => docScan prop r

/-- `(?:\s*=\s*[^;]+)?;` after the property name (pattern 3 tail). -/
def pat3Tail (s : Str) : Bool :=
  (let s1 := skipWs s
   match dropLit (strOf "=") s1 with
   | some s2 =>
     let s3 := skipWs s2
     let v := s3.takeWhile (fun c => ¬ c = ';')
     if v.isEmpty then false
     else
       match s3.dropWhile (fun c => ¬ c = ';') with
       | ';' :: _ => true
       | _ => false
   | none => false) ||
  (match s with
   | ';' :: _ => true
   | _ => false)

/-- Property pattern 3 (part_001:3729):
`(public|protected|private)\s+(?:readonly\s+)?(?:\w+\s+)?\$PROP(?:\s*=\s*[^;]+)?;`. -/
def pat3At (prop s : Str) : Bool :=
  match visAt s with
  | none => false
  | some s0 =>
    match skipWs1 s0 with
    | none => false
    | some s1 => afterVisProp prop pat3Tail s1

/-- `[^)]*?\)`: some closing parenthesis lies ahead. -/
def closeScan : Str → Bool
  | [] => false
  | ')' :: _ => true
  | _ :: r => closeScan r

/-- `\$PROP\b[^)]*?\)`. -/
def dollarCloseScan (prop s : Str) : Bool :=
  match dropLit ('$' :: prop) s with
  | none => false
  | some r => wordBoundary r && closeScan r

/-- `[^)]*?(vis)\s+(?:\w+\s+)?\$PROP\b[^)]*?\)` inside the constructor
parameter list: try each position before the first `)`. -/
def ctorScan (prop : Str) : Str → Bool
  | [] => false
  | c :: r =>
    (match visAt (c :: r) with
     | some s1 =>
       (match skipWs1 s1 with
        | none => false
        | some s2 =>
          dollarCloseScan prop s2 ||
          (match wordWs s2 with
           | some s3 => dollarCloseScan prop s3
           | none => false))
     | none => false) ||
    (if c = ')' then false else ctorScan prop r)

/-- Property pattern 4 (part_001:3731): constructor promotion,
`\s*function\s+__construct\([^)]*?(vis)\s+(?:\w+\s+)?\$PROP\b[^)]*?\)`. -/
def pat4At (prop s : Str) : Bool :=
  let s0 := skipWs s
  match dropLit (strOf "function") s0 with
  | none => false
  | some s1 =>
    match skipWs1 s1 with
    | none => false
    | some s2 =>
      match dropLit (strOf "__construct(") s2 with
      | none => false
      | some s3 => ctorScan prop s3

/-- Property pattern 5 (part_001:3733):
`(public|protected|private)\s+const\s+PROP\b`. -/
def pat5At (prop s : Str) : Bool :=
  match visAt s with
  | none => false
  | some s0 =>
    match skipWs1 s0 with
    | none => false
    | some s1 =>
      match dropLit (strOf "const") s1 with
      | none => false
      | some s2 =>
        match skipWs1 s2 with
        | none => false
        | some s3 =>
          match dropLit prop s3 with
          | none => false
          | some r => wordBoundary r

/-- The ordered property patterns of part_001:3723-3734; the first pattern
with a match wins, at its leftmost index (`matches[0].index`). -/
def firstPatternIdx (prop classContent : Str) : Option Nat :=
  match findIdx (pat1At prop) classContent with
  | some i => some i
  | none =>
    match findIdx (pat2At prop) classContent with
    | some i => some i
    | none =>
      match findIdx (pat3At prop) classContent with
      | some i => some i
      | none =>
        match findIdx (pat4At prop) classContent with
        | some i => some i
        | none => findIdx (pat5At prop) classContent

/-! ### Use statements (`extractUseStatements`, part_001:3415) -/

/-- An import alias: `use fullPath;` or `use fullPath as className;`. -/
structure UseStatement where
  fullPath : Str
  className : Str
deriving DecidableEq

/-- JS `s.split(' as ')`. -/
def splitOnAs : Str → List Str
  | [] => [[]]
  | c :: r =>
    if (strOf " as ").isPrefixOf (c :: r) then
      [] :: splitOnAs (r.drop 3)
    else
      match splitOnAs r with
      | [] => [[c]]
      | h :: t => (c :: h) :: t
termination_by s => s.length
decreasing_by
  · simp only [List.length_drop, List.length_cons]
    omega
  · simp only [List.length_cons]
    omega

/-- `fullPath.split('\\').pop() || ''`. -/
def lastSegmentBackslash (s : Str) : Str := ((s.splitOn '\\').getLast?).getD []

/-- `s.split('\\').pop() || s` (falsy fallback to the whole name). -/
def lastSegmentOr (s : Str) : Str :=
  let l := lastSegmentBackslash s
  if l.isEmpty then s else l

/-- One `use\s+([^;]+);` capture turned into a `UseStatement`
(part_001:3424-3437). -/
def parseUse (cap : Str) : UseStatement :=
  let fullPath := jsTrim cap
  if containsSub fullPath (strOf " as ") then
    let parts := splitOnAs fullPath
    { fullPath := jsTrim parts.headI, className := jsTrim (parts.getD 1 []) }
  else
    { fullPath := fullPath, className := lastSegmentBackslash fullPath }

/-- `use\s+([^;]+);` anchored at `s`, returning the capture and the rest of
the text after the match. -/
def useMatchAt (s : Str) : Option (Str × Str) :=
  match dropLit (strOf "use") s with
  | none => none
  | some s1 =>
    match skipWs1 s1 with
    | none => none
    | some s2 =>
      let cap := s2.takeWhile (fun c => ¬ c = ';')
      if cap.isEmpty then none
      else
        match s2.dropWhile (fun c => ¬ c = ';') with
        | ';' :: rest => some (cap, rest)
        | _ => none

/-- All `/use\s+([^;]+);/g` matches in order; the fuel (initially the text
length) only certifies termination. -/
def extractUseAux (fuel : Nat) (s : Str) : List UseStatement :=
  match fuel with
  | 0 => []
  | fuel + 1 =>
    match s with
    | [] => []
    | c :: r =>
      match useMatchAt (c :: r) with
      | some (cap, rest) => parseUse cap :: extractUseAux fuel rest
      | none => extractUseAux fuel r

/-- `extractUseStatements` (part_001:3415-3443). -/
def extractUseStatements (s : Str) : List UseStatement :=
  extractUseAux s.length s

/-! ### `findPropertyInFile` proper -/

/-- The per-request property cache: `Map<string, Map<string, Location>>`. -/
abbrev PropCache := List (Str × List (Str × Loc))

/-- Inner `Map.set`. -/
def innerSet (m : List (Str × Loc)) (k : Str) (v : Loc) : List (Str × Loc) :=
  match m with
  | [] => [(k, v)]
  | (q, w) :: r => if q = k then (q, v) :: r else (q, w) :: innerSet r k v

/-- The cache update of part_001:3748-3751. -/
def pcacheSet (c : PropCache) (key prop : Str) (loc : Loc) : PropCache :=
  match c with
  | [] => [(key, [(prop, loc)])]
  | (q, m) :: r =>
    if q = key then (q, innerSet m prop loc) :: r
    else (q, m) :: pcacheSet r key prop loc

/-- Outer cache lookup (`Map.has`/`Map.get`). -/
def pcacheLookup (c : PropCache) (k : Str) : Option (List (Str × Loc)) :=
  match c with
  | [] => none
  | (q, m) :: r => if q = k then some m else pcacheLookup r k

/-- Inner cache lookup. -/
def innerLookup (m : List (Str × Loc)) (k : Str) : Option Loc :=
  match m with
  | [] => none
  | (q, v) :: r => if q = k then some v else innerLookup r k

/-- `basename.replace(/(Proxy|__Proxy|_Proxy)\.php$/, '.php')`
(part_001:3647): leftmost match of the alternation means the longest of the
three suffixes. -/
def replaceProxySuffix (b : Str) : Str :=
  if (strOf "__Proxy.php").isSuffixOf b then b.take (b.length - 11) ++ strOf ".php"
  else if (strOf "_Proxy.php").isSuffixOf b then b.take (b.length - 10) ++ strOf ".php"
  else if (strOf "Proxy.php").isSuffixOf b then b.take (b.length - 9) ++ strOf ".php"
  else b

/-- `extends\s+([\w\\]+)` anchored at `s`. -/
def extendsHeadCap (s : Str) : Option Str :=
  match dropLit (strOf "extends") s with
  | none => none
  | some s1 =>
    match skipWs1 s1 with
    | none => none
    | some s2 =>
      let cap := s2.takeWhile isTypeChar
      if cap.isEmpty then none else some cap

/-- Leftmost capture of `/extends\s+([\w\\]+)/` (part_001:3758). -/
def extendsCapture : Str → Option Str
  | [] => none
  | c :: r =>
    match extendsHeadCap (c :: r) with
    | some cap => some cap
    | none => extendsCapture r

/-- First use statement whose alias equals the parent name and whose full
path resolves to a file (part_001:3778-3793). -/
def firstParentViaUse (fs : FS) (root : Str) (parentClass : Str) :
    List UseStatement → Option Str
  | [] => none
  | u :: r =>
    if u.className = parentClass then
      match findClassFileFromNamespaceFast fs root u.fullPath with
      | some p => some p
      | none => firstParentViaUse fs root parentClass r
    else firstParentViaUse fs root parentClass r

/-- Part_001:3641-3652: when forced to the original class and the path lies
under `.php-accessor`, redirect to the original directory with the proxy
suffix stripped, provided that file exists. -/
def forceOriginalPath (fs : FS) (forceOriginalClass : Bool) (filePath0 : Str) : Str :=
  if forceOriginalClass && containsSub filePath0 (strOf ".php-accessor") then
    let originalFilePath :=
      joinPath [dirname (dirname filePath0), replaceProxySuffix (baseName filePath0)]
    if fsExists fs originalFilePath then originalFilePath else filePath0
  else filePath0

/-- The class-body text searched by `findPropertyInFile` together with the
base offset of the returned location (part_001:3718-3720 and 3742): the
extracted span when available, else the whole file at base 0. -/
def classContentOf (content className : Str) : Str × Nat :=
  match extractClassSpan content className with
  | some (cs, ce) => ((content.drop cs).take (ce + 1 - cs), cs)
  | none => (content, 0)

/-- `findPropertyInFile` (part_001:3632-3802): verify the class declaration,
extract the brace-balanced span, try the five property patterns in order
inside it, cache and return the first hit; otherwise follow the `extends`
clause into the parent file.  The source recurses without any bound; `fuel`
makes the recursion total (every theorem supplies sufficient fuel). -/
def findPropertyInFile (fs : FS) (root : Str) :
    Nat → Str → Str → Str → Str → PropCache → Bool → Option Loc × PropCache
  | 0, _, _, _, _, cache, _ => (none, cache)
  | fuel + 1, filePath0, className, propertyName, cacheKey, cache, forceOriginalClass =>
    let filePath := forceOriginalPath fs forceOriginalClass filePath0
    match fsRead fs filePath with
    | none => (none, cache)
    | some fileContent =>
      if ¬ classFound fileContent className then (none, cache)
      else
        let classContent := (classContentOf fileContent className).1
        let base := (classContentOf fileContent className).2
        match firstPatternIdx propertyName classContent with
        | some idx =>
          let loc : Loc := (filePath, base + idx)
          (some loc, pcacheSet cache cacheKey propertyName loc)
        | none =>
          match extendsCapture classContent with
          | none => (none, cache)
          | some parentClass =>
            if containsSub parentClass (strOf "\\") then
              match findClassFileFromNamespaceFast fs root parentClass with
              | none => (none, cache)
              | some parentFile =>
                findPropertyInFile fs root fuel parentFile
                  (lastSegmentOr parentClass) propertyName
                  (cacheKey ++ strOf "::parent") cache forceOriginalClass
            else
              match firstParentViaUse fs root parentClass
                      (extractUseStatements fileContent) with
              | none => (none, cache)
              | some parentFile =>
                findPropertyInFile fs root fuel parentFile
                  parentClass propertyName
                  (cacheKey ++ strOf "::parent") cache forceOriginalClass

/-! ### Proxy file names (`parseHyperfProxyFileName`, part_001:2194) -/

/-- The original-class information encoded in a proxy file name. -/
structure ProxyClassInfo where
  className : Str
  fullClassName : Str
  namespaceName : Str
deriving DecidableEq

/-- `/^_Proxy_(.+?)Accessor$/` (part_001:2196): the name must start with
`_Proxy_` and end with `Accessor` with a non-empty middle, which is split on
underscores into namespace segments plus the class name. -/
def parseHyperfProxyFileName (fileName : Str) : Option ProxyClassInfo :=
  match dropLit (strOf "_Proxy_") fileName with
  | none => none
  | some rest =>
    if (strOf "Accessor").isSuffixOf rest ∧ 8 < rest.length then
      let middle := rest.take (rest.length - 8)
      let namespaceParts := middle.splitOn '_'
      some { className := (namespaceParts.getLast?).getD [],
             fullClassName := joinBackslash namespaceParts,
             namespaceName := joinBackslash namespaceParts.dropLast }
    else none

/-- `isHyperfProxyFile` (part_001:2385-2411): the path must contain
`accessor`, the basename must look like `_Proxy_*Accessor`, and an existing
file must contain `trait <basename>`. -/
def isHyperfProxyFile (fs : FS) (filePath : Str) : Bool :=
  if ¬ containsSub filePath (strOf "accessor") then false
  else
    let fileName := baseNamePhp filePath
    if ¬ ((strOf "_Proxy_").isPrefixOf fileName && (strOf "Accessor").isSuffixOf fileName) then
      false
    else
      match fsRead fs filePath with
      | some content => containsSub content (strOf "trait " ++ fileName)
      | none => true

/-! ### Sidecar metadata (`loadPropertyMappingFromMeta`, part_001:2219) -/

/-- One record of a sidecar metadata document. -/
structure MetaMethod where
  methodName : Str
  fieldName : Str
deriving DecidableEq

/-- A parsed sidecar document: `methods` is `some` exactly when the parsed
JSON has a `methods` array. -/
structure MetaData where
  methods : Option (List MetaMethod)
deriving DecidableEq

/-- A JSON parser: `.error` models a `JSON.parse` exception.  The parser is
kept abstract (the engine treats documents opaquely) and every theorem
quantifies over it or instantiates it. -/
abbrev MetaJsonParse := Str → Except Unit MetaData

/-- `fs.readFileSync`, throwing (`.error`) when the file is absent. -/
def fsReadE (fs : FS) (p : Str) : Except Unit Str :=
  match fsRead fs p with
  | some c => .ok c
  | none => .error ()

/-- `fs.readdirSync`: names (no further `/`) of files directly inside `d`. -/
def readdirFiles (fs : FS) (d : Str) : List Str :=
  (fs.map Prod.fst).filterMap (fun p =>
    match dropLit (d ++ strOf "/") p with
    | some rest => if rest.any (fun c => c = '/') then none else some rest
    | none => none)

/-- The per-file loop of part_001:2232-2256: read and parse each candidate
metadata file; a failed read or parse (`.error`) falls through to the next
file; a `methods` entry whose non-empty `methodName` matches
case-insensitively is returned. -/
def metaLoop (jsonParse : MetaJsonParse) (fs : FS) (metaDir methodName : Str) :
    List Str → Option MetaMethod
  | [] => none
  | f :: r =>
    let metaPath := joinPath [metaDir, f]
    match (fsReadE fs metaPath).bind jsonParse with
    | .error _ => metaLoop jsonParse fs metaDir methodName r
    | .ok md =>
      match md.methods with
      | none => metaLoop jsonParse fs metaDir methodName r
      | some methods =>
        match methods.find? (fun m =>
          (¬ m.methodName.isEmpty) && toLowerStr m.methodName = toLowerStr methodName) with
        | some m => some m
        | none => metaLoop jsonParse fs metaDir methodName r

/-- `loadPropertyMappingFromMeta` (part_001:2219-2262) with the exception
flow explicit: the whole body sits in a `try`/`catch` that returns `null`,
so the result is `.ok` for every input. -/
def loadPropertyMappingFromMetaE (jsonParse : MetaJsonParse) (fs : FS)
    (proxyFilePath methodName : Str) : Except Unit (Option MetaMethod) :=
  let proxyDir := dirname proxyFilePath
  let metaDir := joinPath [dirname proxyDir, strOf "meta"]
  if ¬ dirExists fs metaDir then .ok none
  else
    let metaFiles := (readdirFiles fs metaDir).filter (fun f => (strOf ".json").isSuffixOf f)
    .ok (metaLoop jsonParse fs metaDir methodName metaFiles)

/-- The caller-facing loader: an escaped exception would be caught by the
outer `catch` (part_001:2259-2261) and turned into `null`. -/
def loadPropertyMappingFromMeta (jsonParse : MetaJsonParse) (fs : FS)
    (proxyFilePath methodName : Str) : Option MetaMethod :=
  match loadPropertyMappingFromMetaE jsonParse fs proxyFilePath methodName with
  | .ok v => v
  | .error _ => none

/-! ### Original-class lookup (`findOriginalClassFromNamespace`,
part_001:2416) -/

/-- First path that exists (no content verification here;
part_001:2450-2454). -/
def firstExisting (fs : FS) : List Str → Option Str
  | [] => none
  | p :: r => if fsExists fs p then some p else firstExisting fs r

/-- `findOriginalClassFromNamespace` (part_001:2416-2461): the cached
namespace lookup first, then five PSR-4 style path guesses checked for
existence only. -/
def findOriginalClassFromNamespace (fs : FS) (root : Str) (cache : ClassFileCache)
    (info : ProxyClassInfo) : Option Str × ClassFileCache :=
  let res := findClassFileFromNamespaceWithCache fs root cache info.fullClassName
  match res.1 with
  | some p => (some p, res.2)
  | none =>
    let namespacePath := info.namespaceName.splitOn '\\'
    let phpName := info.className ++ strOf ".php"
    let possiblePaths :=
      [joinPath ([root, toLowerStr namespacePath.headI] ++ namespacePath.tail ++ [phpName]),
       joinPath ([root] ++ namespacePath ++ [phpName]),
       joinPath ([root, strOf "src"] ++ namespacePath.tail ++ [phpName]),
       joinPath ([root, strOf "src"] ++ namespacePath ++ [phpName]),
       joinPath ([root, strOf "application"] ++ namespacePath.tail ++ [phpName])]
    (firstExisting fs possiblePaths, res.2)

/-! ### Proxy navigation (`handleProxyFileNavigation`, part_001:2017) -/

/-- The search-candidate list of part_001:2087-2102: the sidecar field name
first (when present), then the naming-convention variants, de-duplicated
preserving order. -/
def buildSearchCandidates (metaField : Option Str) (variants : List Str) : List Str :=
  insertionDedup ((match metaField with
    | some f => [f]
    | none => []) ++ variants)

/-- The candidate loop of part_001:2106-2122: each candidate is searched via
`findPropertyInFile` (forced to the original class, cache key
`cacheKey_candidate`); the first hit is returned. -/
def candidateLoop (fs : FS) (root : Str) (fuel : Nat)
    (originalClassFile className cacheKey : Str) :
    List Str → PropCache → Option Loc × PropCache
  | [], cache => (none, cache)
  | c :: r, cache =>
    let res := findPropertyInFile fs root fuel originalClassFile className c
        (cacheKey ++ strOf "_" ++ c) cache true
    match res.1 with
    | some loc => (some loc, res.2)
    | none => candidateLoop fs root fuel originalClassFile className cacheKey r res.2

/-- `handleProxyFileNavigation` (part_001:2017-2136): parse the proxy file
name, load the sidecar mapping, locate the original class file, derive the
naming-convention variants from its current content (defaulting on a failed
read), and try the candidates in confidence order.  (The `realPropertyName`
of part_001:2077-2083 is computed but only logged; it is omitted here.) -/
def handleProxyFileNavigation (jsonParse : MetaJsonParse) (fs : FS) (root : Str)
    (fuel : Nat) (cfc : ClassFileCache) (pc : PropCache)
    (word propertyName currentFilePath cacheKey : Str) :
    Option Loc × ClassFileCache × PropCache :=
  let fileName := baseNamePhp currentFilePath
  match parseHyperfProxyFileName fileName with
  | none => (none, cfc, pc)
  | some originalClassInfo =>
    let propertyMapping := loadPropertyMappingFromMeta jsonParse fs currentFilePath word
    let found := findOriginalClassFromNamespace fs root cfc originalClassInfo
    match found.1 with
    | none => (none, found.2, pc)
    | some originalClassFile =>
      let propertyNameVariants :=
        match fsRead fs originalClassFile with
        | some originalClassContent =>
          generatePropertyNameVariants word (parseNamingConvention originalClassContent)
        | none => [propertyName, camelToSnakeCase propertyName]
      let searchCandidates :=
        buildSearchCandidates (propertyMapping.map (fun m => m.fieldName)) propertyNameVariants
      let looped := candidateLoop fs root fuel originalClassFile
        originalClassInfo.className cacheKey searchCandidates pc
      (looped.1, found.2, looped.2)

/-! ### The definition provider (`provideDefinition`, part_001:1961-2012) -/

/-- The state captured by the definition provider: the instance-level
namespace cache and the closed-over property cache. -/
structure NavState where
  classFileCache : ClassFileCache
  propCache : PropCache
deriving DecidableEq

/-- `word.substring(3).charAt(0).toLowerCase() + word.substring(4)`
(part_001:1981). -/
def derivedPropertyName (word : Str) : Str := lowerFirst (word.drop 3)

/-- The accessor classifier of part_001:1977: a literal `get`/`set` prefix
check, nothing more. -/
def wordIsAccessor (word : Str) : Bool :=
  (strOf "get").isPrefixOf word || (strOf "set").isPrefixOf word

/-- `beforeWordText.trim().endsWith('->')` (part_001:1997). -/
def isMethodCallOf (beforeWordText : Str) : Bool :=
  (strOf "->").isSuffixOf (jsTrim beforeWordText)

/-- `provideDefinition` (part_001:1966-2010): reject non-accessor words,
consult the property cache under `path:word`, then dispatch to the proxy
handler or (abstracted) method-call handler.  The returned `Bool` records
whether the answer came from the cache. -/
def provideDefinition (jsonParse : MetaJsonParse) (fs : FS) (root : Str)
    (methodCallHandler : Str → Str → Option Loc) (fuel : Nat) (st : NavState)
    (currentFilePath word beforeWordText : Str) :
    Option Loc × NavState × Bool :=
  if ¬ wordIsAccessor word then (none, st, false)
  else
    let propertyName := derivedPropertyName word
    let cacheKey := currentFilePath ++ strOf ":" ++ word
    let cached :=
      match pcacheLookup st.propCache cacheKey with
      | some inner => innerLookup inner propertyName
      | none => none
    match cached with
    | some loc => (some loc, st, true)
    | none =>
      if isHyperfProxyFile fs currentFilePath then
        let res := handleProxyFileNavigation jsonParse fs root fuel
          st.classFileCache st.propCache word propertyName currentFilePath cacheKey
        (res.1, ⟨res.2.1, res.2.2⟩, false)
      else if isMethodCallOf beforeWordText then
        (methodCallHandler word propertyName, st, false)
      else (none, st, false)

/-! ### Type inference for method calls (first-revision
`handleMethodCallNavigation`, part_001:355-520, helpers part_001:805-933) -/

/-- `objectName.replace('$', '')`: drop the leading dollar sign. -/
def varNameOf (objectName : Str) : Str :=
  match objectName with
  | '$' :: r => r
  | s => s

/-- The rest of the text after the first occurrence of `pat`
(the lazy `.*?pat` with the dot-all flag). -/
def findSubSuffix (pat : Str) : Str → Option Str
  | [] => if pat.isEmpty then some [] else none
  | c :: r =>
    match dropLit pat (c :: r) with
    | some rest => some rest
    | none => findSubSuffix pat r

/-- As `findSubSuffix` but refusing to cross a newline (the lazy `.*?pat`
without the dot-all flag). -/
def findSubSuffixNoNl (pat : Str) : Str → Option Str
  | [] => if pat.isEmpty then some [] else none
  | c :: r =>
    match dropLit pat (c :: r) with
    | some rest => some rest
    | none => if c = '\n' then none else findSubSuffixNoNl pat r

/-- The alternative `(?:\s+\$VAR|[\s\*]|$)` after the captured type name,
tried in regex order; returns the rest after the alternative.  (`varPat` is
`'$' :: varName`.) -/
def varAnnoAltTail (varPat : Str) (s : Str) : Option Str :=
  match (match skipWs1 s with
         | some s1 => dropLit varPat s1
         | none => none) with
  | some r => some r
  | none =>
    match s with
    | c :: r => if isJsSpace c || c = '*' then some r else none
    | [] => some []

/-- Pattern 1 of `findObjectTypeFromVarComment` (part_001:812):
`/\*\s*@var\s+([\w\\]+)\s+\$VAR\s*\*/` anchored at `s`, returning
(full match, capture). -/
def varAnnoP1At (varPat s : Str) : Option (Str × Str) :=
  match dropLit (strOf "/*") s with
  | none => none
  | some s1 =>
    match dropLit (strOf "@var") (skipWs s1) with
    | none => none
    | some s3 =>
      match skipWs1 s3 with
      | none => none
      | some s4 =>
        let cap := s4.takeWhile isTypeChar
        if cap.isEmpty then none
        else
          match skipWs1 (s4.dropWhile isTypeChar) with
          | none => none
          | some s5 =>
            match dropLit varPat s5 with
            | none => none
            | some s6 =>
              match dropLit (strOf "*/") (skipWs s6) with
              | none => none
              | some rest => some (s.take (s.length - rest.length), cap)

/-- The `@var\s+([\w\\]+)ALT` core shared by patterns 2-4, returning the
capture and the rest after the alternative. -/
def varAnnoCoreAt (varPat s : Str) : Option (Str × Str) :=
  match dropLit (strOf "@var") s with
  | none => none
  | some s3 =>
    match skipWs1 s3 with
    | none => none
    | some s4 =>
      let cap := s4.takeWhile isTypeChar
      if cap.isEmpty then none
      else
        match varAnnoAltTail varPat (s4.dropWhile isTypeChar) with
        | none => none
        | some rest => some (cap, rest)

/-- The lazy `.*?@var...` scan of pattern 2 (dot-all), from just after
`/**`: try each `@var` occurrence in order, then close with `.*?\*/`. -/
def p2Scan (varPat : Str) : Str → Option (Str × Str)
  | [] => none
  | c :: r =>
    match (match varAnnoCoreAt varPat (c :: r) with
           | some (cap, s6) =>
             match findSubSuffix (strOf "*/") s6 with
             | some rest => some (cap, rest)
             | none => none
           | none => none) with
    | some res => some res
    | none => p2Scan varPat r

/-- Pattern 2 of `findObjectTypeFromVarComment` (part_001:815):
`/\*\*.*?@var\s+([\w\\]+)(?:\s+\$VAR|[\s\*]|$).*?\*/` with the dot-all
flag, anchored at `s`. -/
def varAnnoP2At (varPat s : Str) : Option (Str × Str) :=
  match dropLit (strOf "/**") s with
  | none => none
  | some s1 =>
    match p2Scan varPat s1 with
    | some (cap, rest) => some (s.take (s.length - rest.length), cap)
    | none => none

/-- Pattern 3 of `findObjectTypeFromVarComment` (part_001:818):
`/\*\s*@var\s+([\w\\]+)(?:\s+\$VAR|[\s\*]|$).*?\*/` without the dot-all
flag (the closing scan cannot cross a newline), anchored at `s`. -/
def varAnnoP3At (varPat s : Str) : Option (Str × Str) :=
  match dropLit (strOf "/*") s with
  | none => none
  | some s1 =>
    match varAnnoCoreAt varPat (skipWs s1) with
    | none => none
    | some (cap, s6) =>
      match findSubSuffixNoNl (strOf "*/") s6 with
      | none => none
      | some rest => some (s.take (s.length - rest.length), cap)

/-- Pattern 4 of `findObjectTypeFromVarComment` (part_001:821):
`//\s*@var\s+([\w\\]+)(?:\s+\$VAR|\s|$)` anchored at `s`. -/
def varAnnoP4At (varPat s : Str) : Option (Str × Str) :=
  match dropLit (strOf "//") s with
  | none => none
  | some s1 =>
    match varAnnoCoreAt varPat (skipWs s1) with
    | none => none
    | some (cap, rest) => some (s.take (s.length - rest.length), cap)

/-- The `while ((match = pattern.exec(text)) !== null)` loop of
part_001:824-837: successive matches (resuming after each full match) until
one passes the filter — the full match mentions `$VAR`, or mentions no `$`
at all.  The fuel (initially the text length) only certifies termination. -/
def execFilterLoop (varPat : Str) (matchAt : Str → Option (Str × Str)) :
    Nat → Str → Option Str
  | 0, _ => none
  | _ + 1, [] => none
  | fuel + 1, c :: r =>
    match matchAt (c :: r) with
    | some (full, cap) =>
      if containsSub full varPat || ¬ containsSub full (strOf "$") then some cap
      else execFilterLoop varPat matchAt fuel ((c :: r).drop (max full.length 1))
    | none => execFilterLoop varPat matchAt fuel r

/-- `findObjectTypeFromVarComment` (part_001:805-840): the four comment
patterns tried in order, each with the exec-and-filter loop. -/
def findObjectTypeFromVarComment (text objectName : Str) : Option Str :=
  let varPat := '$' :: varNameOf objectName
  match execFilterLoop varPat (varAnnoP1At varPat) text.length text with
  | some t => some t
  | none =>
    match execFilterLoop varPat (varAnnoP2At varPat) text.length text with
    | some t => some t
    | none =>
      match execFilterLoop varPat (varAnnoP3At varPat) text.length text with
      | some t => some t
      | none => execFilterLoop varPat (varAnnoP4At varPat) text.length text

/-- Leftmost anchored match. -/
def scanFirst {β : Type} (matchAt : Str → Option β) : Str → Option β
  | [] => matchAt []
  | c :: r =>
    match matchAt (c :: r) with
    | some b => some b
    | none => scanFirst matchAt r

/-- `\$VAR\s*=\s*new\s+` prelude of the instantiation patterns,
returning the rest. -/
def newPreludeAt (objectName s : Str) : Option Str :=
  match dropLit objectName s with
  | none => none
  | some s1 =>
    match dropLit (strOf "=") (skipWs s1) with
    | none => none
    | some s2 =>
      match dropLit (strOf "new") (skipWs s2) with
      | none => none
      | some s3 => skipWs1 s3

/-- Patterns 1-4 of `findObjectTypeFromNew` (part_001:895-924) share the
prelude and a type-name capture; they differ in what must follow:
0 = `\s*[\(;]`, 1 = namespaced capture with `\s*[\(;]`, 2 = `\s*\(`,
3 = nothing. -/
def newCaptureAt (objectName : Str) (mode : Nat) (s : Str) : Option Str :=
  match newPreludeAt objectName s with
  | none => none
  | some s4 =>
    let cap := s4.takeWhile isTypeChar
    if cap.isEmpty then none
    else
      let rest := skipWs (s4.dropWhile isTypeChar)
      match mode with
      | 0 =>
        (match rest with
         | '(' :: _ => some cap
         | ';' :: _ => some cap
         | _ => none)
      | 1 =>
        if ((cap.drop 1).dropLast).contains '\\' then
          (match rest with
           | '(' :: _ => some cap
           | ';' :: _ => some cap
           | _ => none)
        else none
      | 2 =>
        (match rest with
         | '(' :: _ => some cap
         | _ => none)
      | _ => some cap

/-- The factory pattern `\$VAR\s*=\s*.*?\(\s*([\w\\]+)::class`
(part_001:927): after the assignment head, each `(` on the same line is
tried in order. -/
def factoryScan : Str → Option Str
  | [] => none
  | '\n' :: _ => none
  | '(' :: r =>
    (let cap := (skipWs r).takeWhile isTypeChar
     if cap.isEmpty then none
     else
       match dropLit (strOf "::class") ((skipWs r).dropWhile isTypeChar) with
       | some _ => some cap
       | none => factoryScan r)
  | _ :: r => factoryScan r

/-- `\$VAR\s*=\s*` head of the factory pattern. -/
def factoryAt (objectName s : Str) : Option Str :=
  match dropLit objectName s with
  | none => none
  | some s1 =>
    match dropLit (strOf "=") (skipWs s1) with
    | none => none
    | some s2 => factoryScan (skipWs s2)

/-- `findObjectTypeFromNew` (part_001:889-933): the five instantiation
patterns in order, each searched leftmost. -/
def findObjectTypeFromNew (text objectName : Str) : Option Str :=
  match scanFirst (newCaptureAt objectName 0) text with
  | some t => some t
  | none =>
    match scanFirst (newCaptureAt objectName 1) text with
    | some t => some t
    | none =>
      match scanFirst (newCaptureAt objectName 2) text with
      | some t => some t
      | none =>
        match scanFirst (newCaptureAt objectName 3) text with
        | some t => some t
        | none => scanFirst (factoryAt objectName) text

/-- `([\w\\]+)\s+\$VAR[,\)]` anchored at `s` (the tail of the parameter
pattern); the capture is the maximal type-name run at this position. -/
def paramTailAt (objectName s : Str) : Option Str :=
  let cap := s.takeWhile isTypeChar
  if cap.isEmpty then none
  else
    match skipWs1 (s.dropWhile isTypeChar) with
    | none => none
    | some s2 =>
      match dropLit objectName s2 with
      | none => none
      | some s3 =>
        match s3 with
        | ',' :: _ => some cap
        | ')' :: _ => some cap
        | _ => none

/-- The greedy `[^)]*` before the capture prefers the latest start: the
last position (before any `)`) where the tail matches wins. -/
def lastParamMatch (objectName : Str) : Str → Option Str
  | [] => none
  | c :: r =>
    if c = ')' then none
    else
      match lastParamMatch objectName r with
      | some cap => some cap
      | none => paramTailAt objectName (c :: r)

/-- `function\s+\w+\s*\(` header of the parameter pattern
(part_001:847), anchored at `s`. -/
def funcParamsAt (objectName s : Str) : Option Str :=
  match dropLit (strOf "function") s with
  | none => none
  | some s1 =>
    match skipWs1 s1 with
    | none => none
    | some s2 =>
      let w := s2.takeWhile isWordChar
      if w.isEmpty then none
      else
        match skipWs (s2.dropWhile isWordChar) with
        | '(' :: rest => lastParamMatch objectName rest
        | _ => none

/-- `findObjectTypeFromFunctionParams` (part_001:845-855). -/
def findObjectTypeFromFunctionParams (text objectName : Str) : Option Str :=
  scanFirst (funcParamsAt objectName) text

/-- One candidate type inferred for a method-call receiver
(part_001:383). -/
structure PotentialType where
  type : Str
  source : Str
  fullClassName : Str
deriving DecidableEq

/-- Alias expansion (part_001:409-420 etc.): a short name is looked up in
the use-statement table and returned unchanged when no alias matches. -/
def resolveFullClassNameList (t : Str) (us : List UseStatement) : Str :=
  if containsSub t (strOf "\\") then t
  else
    match us.find? (fun u => u.className = t) with
    | some u => u.fullPath
    | none => t

/-- `document.lineAt(i).text`. -/
def lineAt (doc : List Str) (i : Nat) : Str := doc.getD i []

/-- Lines `a..b` of the document joined with newlines. -/
def sliceLines (doc : List Str) (a b : Nat) : List Str := (doc.drop a).take (b + 1 - a)

/-- `document.getText()` over a line-structured document. -/
def joinLines (ls : List Str) : Str := (ls.intersperse (strOf "\n")).flatten

/-- The backward annotation search of part_001:388-437: from `sl` downward
while within the window (`budget`), a line mentioning `@var` and the
variable name has its 4-line context parsed; a blank line or a closing
brace stops the search. -/
def annotationBackScanAux (doc : List Str) (objectName : Str) :
    Nat → Nat → Option Str
  | _, 0 => none
  | sl, budget + 1 =>
    let searchText := jsTrim (lineAt doc sl)
    if containsSub searchText (strOf "@var") &&
       containsSub searchText (varNameOf objectName) then
      match findObjectTypeFromVarComment
          (joinLines (sliceLines doc (sl - 2) (sl + 1))) objectName with
      | some t => some t
      | none =>
        if searchText = [] ∨ searchText = strOf "\x7d" then none
        else if sl = 0 then none
        else annotationBackScanAux doc objectName (sl - 1) budget
    else
      if searchText = [] ∨ searchText = strOf "\x7d" then none
      else if sl = 0 then none
      else annotationBackScanAux doc objectName (sl - 1) budget

/-- The bounded backward annotation search starting at `lineIndex - 1`. -/
def annotationBackScan (doc : List Str) (objectName : Str)
    (lineIndex maxLines : Nat) : Option Str :=
  if lineIndex = 0 then none
  else annotationBackScanAux doc objectName (lineIndex - 1) maxLines

/-- The prioritized candidate-type list of part_001:383-514, parameterized
by the window bound of the backward annotation strategy: the local
annotation search, else the whole-file annotation search, then (always)
the instantiation search and the parameter search, each alias-expanded. -/
def inferPotentialTypes (maxLines : Nat) (doc : List Str) (lineIndex : Nat)
    (objectName : Str) : List PotentialType :=
  let fullText := joinLines doc
  let us := extractUseStatements fullText
  let phpDocPart :=
    match annotationBackScan doc objectName lineIndex maxLines with
    | some t => [{ type := t, source := strOf "phpDoc",
                   fullClassName := resolveFullClassNameList t us }]
    | none =>
      match findObjectTypeFromVarComment fullText objectName with
      | some t => [{ type := t, source := strOf "globalPhpDoc",
                     fullClassName := resolveFullClassNameList t us }]
      | none => []
  let newPart :=
    match findObjectTypeFromNew fullText objectName with
    | some t => [{ type := t, source := strOf "new",
                   fullClassName := resolveFullClassNameList t us }]
    | none => []
  let paramPart :=
    match findObjectTypeFromFunctionParams fullText objectName with
    | some t => [{ type := t, source := strOf "param",
                   fullClassName := resolveFullClassNameList t us }]
    | none => []
  phpDocPart ++ newPart ++ paramPart

/-- The pipeline as the source has it: `maxLinesToSearch = 10`
(part_001:389). -/
def handleMethodCallPotentialTypes (doc : List Str) (lineIndex : Nat)
    (objectName : Str) : List PotentialType :=
  inferPotentialTypes 10 doc lineIndex objectName

/-- Modelled from the claim's words (for comparison only): the same
pipeline with the claimed 15-line window. -/
def claimPotentialTypes (doc : List Str) (lineIndex : Nat)
    (objectName : Str) : List PotentialType :=
  inferPotentialTypes 15 doc lineIndex objectName

/-! ### Concrete scenarios used to instantiate theorems -/

/-- A one-class file: `Widget` declaring `$code`. -/
def widgetFilePath : Str := strOf "/w/app/Models/Widget.php"

/-- Content of the `Widget` file. -/
def widgetContent : Str := strOf "<?php namespace App; class Widget \x7b public $code; \x7d"

/-- A file system holding only the `Widget` file. -/
def widgetFS : FS := [(widgetFilePath, widgetContent)]

/-- A file whose class-declaration check for `Target` passes only through the
`extends` pattern (no `class Target` header); the only `$foo` declaration
lives in the unrelated sibling class `Other`. -/
def siblingContent : Str :=
  strOf "<?php class Other \x7b public $foo; \x7d class Sub extends Target \x7b \x7d"

/-- A file system holding only the sibling-classes file. -/
def siblingFS : FS := [(strOf "/w/a.php", siblingContent)]

/-- `Child extends ParentC` and does not declare `$id`. -/
def childFilePath : Str := strOf "/w/app/Child.php"

/-- Content of the `Child` file. -/
def childContent : Str :=
  strOf "<?php use App\\Models\\ParentC; class Child extends ParentC \x7b public $other; \x7d"

/-- `ParentC` declares `$id`. -/
def parentFilePath : Str := strOf "/w/app/Models/ParentC.php"

/-- Content of the `ParentC` file. -/
def parentContent : Str :=
  strOf "<?php namespace App\\Models; class ParentC \x7b public $id; \x7d"

/-- A file system holding the child and parent files. -/
def inheritFS : FS := [(childFilePath, childContent), (parentFilePath, parentContent)]

/-- A document with a far `@var Alpha $x` annotation (line 0), a nearer
`@var Beta $x` annotation 12 lines above the call (line 3), and the call on
line 15.  Distance 12 lies inside a 15-line window but outside a 10-line
window. -/
def c2doc : List Str :=
  [strOf "/* @var Alpha $x */",
   strOf "$a = 1;",
   strOf "$a = 1;",
   strOf "/* @var Beta $x */",
   strOf "$a = 1;", strOf "$a = 1;", strOf "$a = 1;", strOf "$a = 1;",
   strOf "$a = 1;", strOf "$a = 1;", strOf "$a = 1;", strOf "$a = 1;",
   strOf "$a = 1;", strOf "$a = 1;", strOf "$a = 1;",
   strOf "$x->getFoo();"]

/-- A document with an annotation directly above the call. -/
def c2docNear : List Str :=
  [strOf "/* @var Gamma $y */",
   strOf "$y->getA();"]

/-- First `some` in a list of attempts. -/
def firstSome {α : Type} : List (Option α) → Option α
  | [] => none
  | o :: r =>
    match o with
    | some a => some a
    | none => firstSome r

/-- Proxy file of the sidecar-precedence scenario. -/
def c1proxyPath : Str :=
  strOf "/w/.php-accessor/proxy/accessor/_Proxy_App_Domain_WidgetAccessor.php"

/-- Original class file of the sidecar-precedence scenario. -/
def c1widgetPath : Str := strOf "/w/app/Domain/Widget.php"

/-- `Widget` declares both `$internalCode` and `$code`. -/
def c1widgetContent : Str :=
  strOf "<?php namespace App\\Domain; class Widget \x7b public $internalCode; public $code; \x7d"

/-- File system of the sidecar-precedence scenario: the proxy trait, one
sidecar document, and the original class. -/
def c1fs : FS :=
  [(c1proxyPath, strOf "trait _Proxy_App_Domain_WidgetAccessor \x7b \x7d"),
   (strOf "/w/.php-accessor/proxy/meta/widget.json", strOf "J1"),
   (c1widgetPath, c1widgetContent)]

/-- The parser of the sidecar document `J1`:
`{methods: [{methodName: "getCode", fieldName: "internalCode"}]}`. -/
def c1parse : MetaJsonParse := fun s =>
  if s = strOf "J1" then
    .ok { methods := some [{ methodName := strOf "getCode", fieldName := strOf "internalCode" }] }
  else .error ()

/-- Proxy file of the cache-idempotence scenario. -/
def c5proxyPath : Str := strOf "/w/.php-accessor/proxy/accessor/_Proxy_App_WidgetAccessor.php"

/-- File system of the cache-idempotence scenario (no sidecar directory). -/
def c5fs : FS :=
  [(c5proxyPath, strOf "trait _Proxy_App_WidgetAccessor \x7b \x7d"),
   (strOf "/w/app/Widget.php", strOf "<?php class Widget \x7b public $code; \x7d")]

/-- A parser that rejects every document. -/
def noParse : MetaJsonParse := fun _ => .error ()

/-- A method-call handler that never resolves. -/
def noHandler : Str → Str → Option Loc := fun _ _ => none

/-- Sidecar directory with a malformed first document and a well-formed
second one (fall-through scenario). -/
def c6fs : FS :=
  [(strOf "/w/.php-accessor/proxy/meta/a.json", strOf "BAD"),
   (strOf "/w/.php-accessor/proxy/meta/b.json", strOf "J1")]

end PhpAccessor

namespace PhpAccessor

/-! ## Theorems -/

set_option maxRecDepth 10000

theorem toLower_toNat_of_upper (c : Char) (h65 : 65 ≤ c.toNat) (h90 : c.toNat ≤ 90) :
    (Char.toLower c).toNat = c.toNat + 32 := by
  unfold Char.toLower
  rw [if_pos ⟨h65, h90⟩]
  have hv : (c.toNat + 32).isValidChar := by
    left
    omega
  rw [Char.ofNat, dif_pos hv]
  simp [Char.ofNatAux, Char.toNat, UInt32.toNat, BitVec.toNat_ofNatLt]

theorem toUpper_toNat_of_lower (c : Char) (h97 : 97 ≤ c.toNat) (h122 : c.toNat ≤ 122) :
    (Char.toUpper c).toNat = c.toNat - 32 := by
  unfold Char.toUpper
  rw [if_pos ⟨h97, h122⟩]
  have hv : (c.toNat - 32).isValidChar := by
    left
    omega
  rw [Char.ofNat, dif_pos hv]
  simp [Char.ofNatAux, Char.toNat, UInt32.toNat, BitVec.toNat_ofNatLt]

theorem toLower_eq_self (c : Char) (h : ¬ (65 ≤ c.toNat ∧ c.toNat ≤ 90)) :
    Char.toLower c = c := by
  unfold Char.toLower
  rw [if_neg h]

theorem toUpper_eq_self (c : Char) (h : ¬ (97 ≤ c.toNat ∧ c.toNat ≤ 122)) :
    Char.toUpper c = c := by
  unfold Char.toUpper
  rw [if_neg h]

/-- On a remainder starting with an ASCII letter, the snake_case fallback
differs from the upper-camel variant. -/
theorem camelToSnakeCase_ne_upperFirst (c : Char) (t : Str)
    (hc : (65 ≤ c.toNat ∧ c.toNat ≤ 90) ∨ (97 ≤ c.toNat ∧ c.toNat ≤ 122)) :
    camelToSnakeCase (c :: t) ≠ upperFirst (c :: t) := by
  rcases hc with ⟨h65, h90⟩ | ⟨h97, h122⟩
  · have hU : isAsciiUpper c = true := by
      simp [isAsciiUpper]
      omega
    have hlow : Char.toLower '_' = '_' := by decide
    have : camelToSnakeCase (c :: t)
        = Char.toLower c :: (snakeExpand t).map Char.toLower := by
      simp [camelToSnakeCase, snakeExpand, hU, hlow, dropLeadUnderscore]
    rw [this]
    have hUp : Char.toUpper c = c := toUpper_eq_self c (by omega)
    show Char.toLower c :: _ ≠ Char.toUpper c :: _
    intro hEq
    have hhd := List.head_eq_of_cons_eq hEq
    have h1 := toLower_toNat_of_upper c h65 h90
    rw [hUp] at hhd
    have := congrArg Char.toNat hhd
    omega
  · have hU : isAsciiUpper c = false := by
      simp [isAsciiUpper]
      omega
    have hlowc : Char.toLower c = c := toLower_eq_self c (by omega)
    have hcund : ¬ c = '_' := by
      intro hEq
      have h95 : ('_').toNat = 95 := by decide
      rw [hEq, h95] at h97
      omega
    have : camelToSnakeCase (c :: t)
        = c :: (snakeExpand t).map Char.toLower := by
      simp [camelToSnakeCase, snakeExpand, hU, hlowc, dropLeadUnderscore, hcund]
    rw [this]
    show c :: _ ≠ Char.toUpper c :: _
    intro hEq
    have hhd := List.head_eq_of_cons_eq hEq
    have h1 := toUpper_toNat_of_lower c h97 h122
    have := congrArg Char.toNat hhd
    omega

theorem insertionDedup_three {α : Type} [DecidableEq α] (p l s : α) :
    insertionDedup [p, l, s] =
      if l = p then (if s = p then [p] else [p, s])
      else (if s = p ∨ s = l then [p, l] else [p, l, s]) := by
  by_cases h1 : l = p <;> by_cases h2 : s = p <;>
    simp [insertionDedup, dedupKeep, h1, h2] <;>
    by_cases h3 : s = l <;> simp [h3]

theorem dedupKeep_sublist {α : Type} [DecidableEq α] (seen l : List α) :
    (dedupKeep seen l).Sublist l := by
  induction l generalizing seen with
  | nil => simp [dedupKeep]
  | cons x r ih =>
    by_cases hx : x ∈ seen
    · simp only [dedupKeep, if_pos hx]
      exact (ih seen).cons x
    · simp only [dedupKeep, if_neg hx]
      exact (ih (x :: seen)).cons₂ x

theorem not_mem_seen_of_mem_dedupKeep {α : Type} [DecidableEq α]
    {seen l : List α} {x : α} (h : x ∈ dedupKeep seen l) : x ∉ seen := by
  induction l generalizing seen with
  | nil => simp [dedupKeep] at h
  | cons y r ih =>
    by_cases hy : y ∈ seen
    · simp only [dedupKeep, if_pos hy] at h
      exact ih h
    · simp only [dedupKeep, if_neg hy] at h
      rcases List.mem_cons.mp h with rfl | h2
      · exact hy
      · intro hseen
        exact ih h2 (List.mem_cons_of_mem _ hseen)

theorem dedupKeep_nodup {α : Type} [DecidableEq α] (seen l : List α) :
    (dedupKeep seen l).Nodup := by
  induction l generalizing seen with
  | nil => simp [dedupKeep]
  | cons x r ih =>
    by_cases hx : x ∈ seen
    · simp only [dedupKeep, if_pos hx]
      exact ih seen
    · simp only [dedupKeep, if_neg hx]
      refine List.nodup_cons.mpr ⟨?_, ih (x :: seen)⟩
      intro hmem
      exact not_mem_seen_of_mem_dedupKeep hmem (List.mem_cons_self x seen)

/-- C9: the naming-convention transformer strips the 3-character `get`/`set`
prefix; under UpperCamel (3) the first candidate is the capitalized remainder
(`getFooBar` yields `FooBar` before `fooBar`), under LowerCamel (2) or
None (1) the remainder with its first letter lower-cased; the snake_case
transliteration is always the last candidate; the list is de-duplicated while
preserving order and is never empty. -/
theorem generatePropertyNameVariants_spec (m : Str) (conv : Nat) (h4 : 4 ≤ m.length) :
    generatePropertyNameVariants m conv ≠ [] ∧
    (generatePropertyNameVariants m conv).head? =
      some (convertPropertyNameByConvention m conv) ∧
    (conv = 3 → convertPropertyNameByConvention m conv = upperFirst (m.drop 3)) ∧
    (conv = 1 ∨ conv = 2 →
      convertPropertyNameByConvention m conv = lowerFirst (m.drop 3)) ∧
    (generatePropertyNameVariants m conv).getLast? =
      some (camelToSnakeCase (m.drop 3)) ∧
    (generatePropertyNameVariants m conv).Nodup ∧
    (generatePropertyNameVariants m conv).Sublist
      [convertPropertyNameByConvention m conv, lowerFirst (m.drop 3),
       camelToSnakeCase (m.drop 3)] ∧
    generatePropertyNameVariants (strOf "getFooBar") 3 =
      [strOf "FooBar", strOf "fooBar", strOf "foo_bar"] := by
  set p := convertPropertyNameByConvention m conv with hp
  set l := lowerFirst (m.drop 3) with hl
  set s := camelToSnakeCase (m.drop 3) with hs
  have hgen : generatePropertyNameVariants m conv = insertionDedup [p, l, s] := rfl
  have hchar := insertionDedup_three p l s
  have hpl : conv ≠ 3 → p = l := by
    intro h3
    rcases conv with _ | _ | _ | _ | n <;> simp [hp, convertPropertyNameByConvention] at *
  have hb : ∃ c t, m.drop 3 = c :: t := by
    have : (m.drop 3).length = m.length - 3 := List.length_drop 3 m
    rcases hcons : m.drop 3 with _ | ⟨c, t⟩
    · rw [hcons] at this
      simp at this
      omega
    · exact ⟨c, t, rfl⟩
  have hkey : s = p → l ≠ p → False := by
    intro hsp hlp
    by_cases h3 : conv = 3
    · rcases hb with ⟨c, t, hct⟩
      have hp3 : p = upperFirst (c :: t) := by
        rw [hp, h3, ← hct]
        rfl
      by_cases hletter : (65 ≤ c.toNat ∧ c.toNat ≤ 90) ∨ (97 ≤ c.toNat ∧ c.toNat ≤ 122)
      · exact camelToSnakeCase_ne_upperFirst c t hletter
          (by rw [hs, hct] at hsp; rw [← hp3]; exact hsp)
      · push_neg at hletter
        have hUp : Char.toUpper c = c := toUpper_eq_self c (by omega)
        have hLo : Char.toLower c = c := toLower_eq_self c (by omega)
        apply hlp
        rw [hp3, hl, hct]
        simp [upperFirst, lowerFirst, hUp, hLo]
    · exact hlp (hpl h3).symm
  refine ⟨?_, ?_, ?_, ?_, ?_, ?_, ?_, ?_⟩
  · rw [hgen, hchar]
    split_ifs <;> simp
  · rw [hgen, hchar]
    split_ifs <;> simp
  · intro h3
    rw [hp, h3]
    rfl
  · intro h12
    rcases h12 with h1 | h2
    · rw [hp, h1]
      rfl
    · rw [hp, h2]
      rfl
  · rw [hgen, hchar]
    by_cases h1 : l = p
    · by_cases h2 : s = p
      · simp [h1, h2]
      · simp [h1, h2]
    · by_cases h2 : s = p ∨ s = l
      · rcases h2 with h2 | h2
        · exact (hkey h2 h1).elim
        · simp [h1, h2, List.getLast?]
      · push_neg at h2
        simp [h1, h2.1, h2.2, List.getLast?]
  · rw [hgen]
    exact dedupKeep_nodup [] _
  · rw [hgen]
    exact dedupKeep_sublist [] _
  · decide

/-- C9 witness: instantiation at `getFooBar` under UpperCamel. -/
theorem generatePropertyNameVariants_spec_witness :
    4 ≤ (strOf "getFooBar").length ∧
    (generatePropertyNameVariants (strOf "getFooBar") 3).head? =
      some (convertPropertyNameByConvention (strOf "getFooBar") 3) :=
  ⟨by decide, (generatePropertyNameVariants_spec (strOf "getFooBar") 3 (by decide)).2.1⟩

theorem withCache_update_shape (fs : FS) (root : Str) (c : ClassFileCache) (n : Str)
    (hl : cacheLookup c n = none) :
    (findClassFileFromNamespaceWithCache fs root c n).2 =
      (if 100 < (c ++ [(n, findClassFileFromNamespaceFast fs root n)]).length
       then (c ++ [(n, findClassFileFromNamespaceFast fs root n)]).drop 1
       else (c ++ [(n, findClassFileFromNamespaceFast fs root n)])) := by
  unfold findClassFileFromNamespaceWithCache
  rw [hl]

/-- C7: the namespace-to-file cache is capacity-bounded at 100; a hit leaves
the cache untouched (no LRU refresh); a miss at capacity evicts the
oldest-inserted entry; any lookup sequence from a bounded cache stays
bounded. -/
theorem findClassFileFromNamespaceWithCache_spec (fs : FS) (root : Str)
    (cache : ClassFileCache) (ns : Str) :
    (cache.length ≤ 100 →
      ((findClassFileFromNamespaceWithCache fs root cache ns).2).length ≤ 100) ∧
    (∀ v, cacheLookup cache ns = some v →
      findClassFileFromNamespaceWithCache fs root cache ns = (v, cache)) ∧
    (cacheLookup cache ns = none → cache.length = 100 →
      (findClassFileFromNamespaceWithCache fs root cache ns).2
        = cache.drop 1 ++ [(ns, findClassFileFromNamespaceFast fs root ns)]) ∧
    (∀ nss, cache.length ≤ 100 →
      (cacheInsertAll fs root nss cache).length ≤ 100) := by
  have hbound : ∀ (c : ClassFileCache) (n : Str), c.length ≤ 100 →
      ((findClassFileFromNamespaceWithCache fs root c n).2).length ≤ 100 := by
    intro c n hc
    match hl : cacheLookup c n with
    | some v =>
      unfold findClassFileFromNamespaceWithCache
      rw [hl]
      exact hc
    | none =>
      rw [withCache_update_shape fs root c n hl]
      by_cases hlen : 100 < (c ++ [(n, findClassFileFromNamespaceFast fs root n)]).length
      · rw [if_pos hlen, List.length_drop]
        rw [List.length_append] at hlen ⊢
        simp at hlen ⊢
        omega
      · rw [if_neg hlen]
        rw [List.length_append] at hlen ⊢
        simp at hlen ⊢
        omega
  refine ⟨hbound cache ns, ?_, ?_, ?_⟩
  · intro v hv
    unfold findClassFileFromNamespaceWithCache
    rw [hv]
  · intro hmiss hfull
    rw [withCache_update_shape fs root cache ns hmiss]
    have hlen : 100 < (cache ++ [(ns, findClassFileFromNamespaceFast fs root ns)]).length := by
      rw [List.length_append, hfull]
      simp
    rw [if_pos hlen]
    rcases cache with _ | ⟨e, rest⟩
    · simp at hfull
    · simp
  · intro nss
    induction nss generalizing cache with
    | nil =>
      intro hc
      simpa [cacheInsertAll] using hc
    | cons n r ih =>
      intro hc
      exact ih _ (hbound cache n hc)

/-- C7 witness: one lookup on an empty cache stays within the bound. -/
theorem findClassFileFromNamespaceWithCache_spec_witness :
    ([] : ClassFileCache).length ≤ 100 ∧
    ((findClassFileFromNamespaceWithCache [] (strOf "/w") [] (strOf "App\\W")).2).length ≤ 100 :=
  ⟨by decide,
   (findClassFileFromNamespaceWithCache_spec [] (strOf "/w") [] (strOf "App\\W")).1 (by decide)⟩

/-- C8: a class source with no naming-convention annotation parses to
convention 1 (NONE), not 2 (LowerCamel); and the convention used for a proxy
resolution is re-parsed from the original class file's current content. -/
theorem parseNamingConvention_no_marker (content : Str)
    (hno : findDataConventionWord content = none)
    (hhy : containsSub content (strOf "#[HyperfData]") = false) :
    parseNamingConvention content = 1 ∧
    parseNamingConvention content ≠ 2 ∧
    (∀ fs f, fsRead fs f = some content → proxyConventionOf fs f = 1) ∧
    (∀ fs f c, fsRead fs f = some c →
      proxyConventionOf fs f = parseNamingConvention c) := by
  have h1 : parseNamingConvention content = 1 := by
    unfold parseNamingConvention
    rw [hno, hhy]
    simp
  refine ⟨h1, by omega, ?_, ?_⟩
  · intro fs f hr
    unfold proxyConventionOf
    rw [hr]
    exact h1
  · intro fs f c hr
    unfold proxyConventionOf
    rw [hr]

/-- C8 witness: a plain class body with no annotation. -/
theorem parseNamingConvention_no_marker_witness :
    findDataConventionWord (strOf "<?php class Widget") = none ∧
    containsSub (strOf "<?php class Widget") (strOf "#[HyperfData]") = false ∧
    parseNamingConvention (strOf "<?php class Widget") = 1 :=
  ⟨by decide, by decide,
   (parseNamingConvention_no_marker (strOf "<?php class Widget")
     (by decide) (by decide)).1⟩

theorem findIdx_some_lt {f : Str → Bool} {l : Str} {i : Nat}
    (hnil : f [] = false) (h : findIdx f l = some i) : i < l.length := by
  induction l generalizing i with
  | nil =>
    unfold findIdx at h
    rw [hnil] at h
    simp at h
  | cons c r ih =>
    unfold findIdx at h
    by_cases hc : f (c :: r)
    · rw [if_pos hc] at h
      cases h
      simp
    · rw [if_neg hc] at h
      rcases Option.map_eq_some'.mp h with ⟨j, hj, rfl⟩
      have := ih hj
      simp only [List.length_cons]
      omega

theorem pat1At_nil (prop : Str) : pat1At prop [] = false := rfl

theorem pat2At_nil (prop : Str) : pat2At prop [] = false := rfl

theorem pat3At_nil (prop : Str) : pat3At prop [] = false := rfl

theorem pat4At_nil (prop : Str) : pat4At prop [] = false := rfl

theorem pat5At_nil (prop : Str) : pat5At prop [] = false := rfl

/-- A property-pattern match index always lies inside the searched text. -/
theorem firstPatternIdx_lt (prop l : Str) (i : Nat)
    (h : firstPatternIdx prop l = some i) : i < l.length := by
  unfold firstPatternIdx at h
  rcases h1 : findIdx (pat1At prop) l with _ | j <;> rw [h1] at h
  · rcases h2 : findIdx (pat2At prop) l with _ | j <;> rw [h2] at h
    · rcases h3 : findIdx (pat3At prop) l with _ | j <;> rw [h3] at h
      · rcases h4 : findIdx (pat4At prop) l with _ | j <;> rw [h4] at h
        · exact findIdx_some_lt (pat5At_nil prop) h
        · cases h
          exact findIdx_some_lt (pat4At_nil prop) h4
      · cases h
        exact findIdx_some_lt (pat3At_nil prop) h3
    · cases h
      exact findIdx_some_lt (pat2At_nil prop) h2
  · cases h
    exact findIdx_some_lt (pat1At_nil prop) h1

theorem forceOriginalPath_false (fs : FS) (p : Str) : forceOriginalPath fs false p = p := rfl

/-- C3 (amended): when the `class CLASS` header is found and the brace scan
closes (span extraction succeeds), the location returned for a hit in the
declaring file lies within the extracted span `[classStart, classEnd]`. -/
theorem findPropertyInFile_span_sound
    (fs : FS) (root : Str) (fuel : Nat)
    (filePath className propertyName cacheKey : Str) (cache : PropCache)
    (content : Str) (cs ce idx : Nat)
    (hread : fsRead fs filePath = some content)
    (hfound : classFound content className = true)
    (hspan : extractClassSpan content className = some (cs, ce))
    (hidx : firstPatternIdx propertyName ((content.drop cs).take (ce + 1 - cs)) = some idx) :
    (findPropertyInFile fs root (fuel + 1) filePath className propertyName
        cacheKey cache false).1 = some (filePath, cs + idx) ∧
    cs ≤ cs + idx ∧ cs + idx ≤ ce := by
  have hcc : classContentOf content className = ((content.drop cs).take (ce + 1 - cs), cs) := by
    unfold classContentOf
    rw [hspan]
  have hres : (findPropertyInFile fs root (fuel + 1) filePath className propertyName
      cacheKey cache false).1 = some (filePath, cs + idx) := by
    unfold findPropertyInFile
    rw [forceOriginalPath_false]
    dsimp only
    rw [hread]
    simp only [hfound, hcc, hidx]
    simp
  refine ⟨hres, by omega, ?_⟩
  have hlt := firstPatternIdx_lt _ _ _ hidx
  have htake : ((content.drop cs).take (ce + 1 - cs)).length ≤ ce + 1 - cs := by
    rw [List.length_take]
    omega
  omega

/-- C3 witness: the `Widget` file, span `[21, 50]`, hit at offset 36. -/
theorem findPropertyInFile_span_sound_witness :
    fsRead widgetFS widgetFilePath = some widgetContent ∧
    classFound widgetContent (strOf "Widget") = true ∧
    extractClassSpan widgetContent (strOf "Widget") = some (21, 50) ∧
    firstPatternIdx (strOf "code") ((widgetContent.drop 21).take (50 + 1 - 21)) = some 15 ∧
    ((findPropertyInFile widgetFS (strOf "/w") 3 widgetFilePath (strOf "Widget")
        (strOf "code") (strOf "k") [] false).1 = some (widgetFilePath, 21 + 15) ∧
     21 ≤ 21 + 15 ∧ 21 + 15 ≤ 50) :=
  ⟨by decide, by decide, by decide, by decide,
   findPropertyInFile_span_sound widgetFS (strOf "/w") 2 widgetFilePath (strOf "Widget")
     (strOf "code") (strOf "k") [] widgetContent 21 50 15
     (by decide) (by decide) (by decide) (by decide)⟩

/-- C3 counterexample: a file passing the class-declaration check for
`Target` only through the `extends` pattern has no extracted span, the
search degrades to the whole file, and the property declared in the
unrelated sibling class `Other` (inside `Other`'s span `[6, 33]`) is
returned as the resolved location. -/
theorem findPropertyInFile_sibling_counterexample :
    classFound siblingContent (strOf "Target") = true ∧
    extractClassSpan siblingContent (strOf "Target") = none ∧
    (findPropertyInFile siblingFS (strOf "/w") 3 (strOf "/w/a.php") (strOf "Target")
        (strOf "foo") (strOf "k") [] false).1 = some (strOf "/w/a.php", 20) ∧
    extractClassSpan siblingContent (strOf "Other") = some (6, 33) ∧
    6 ≤ 20 ∧ (20 : Nat) ≤ 33 :=
  ⟨by decide, by decide, by decide, by decide, by decide, by decide⟩

/-- C4: when no candidate matches inside the class body and the `extends`
clause resolves (directly for a qualified name, else through the use-alias
table), the locator recurses into the parent file with the same candidate
name; concretely, `Child extends ParentC` resolves `$id` inside `ParentC`'s
file rather than returning `Absent`. -/
theorem findPropertyInFile_parent_recursion
    (fs : FS) (root : Str) (fuel : Nat)
    (filePath className propertyName cacheKey : Str) (cache : PropCache)
    (content parentClass parentFile : Str)
    (hread : fsRead fs filePath = some content)
    (hfound : classFound content className = true)
    (hnomatch : firstPatternIdx propertyName (classContentOf content className).1 = none)
    (hext : extendsCapture (classContentOf content className).1 = some parentClass)
    (hresolve : (if containsSub parentClass (strOf "\\") then
        findClassFileFromNamespaceFast fs root parentClass
      else firstParentViaUse fs root parentClass (extractUseStatements content)) = some parentFile) :
    (findPropertyInFile fs root (fuel + 1) filePath className propertyName cacheKey cache false =
      findPropertyInFile fs root fuel parentFile
        (if containsSub parentClass (strOf "\\") then lastSegmentOr parentClass else parentClass)
        propertyName (cacheKey ++ strOf "::parent") cache false) ∧
    (findPropertyInFile inheritFS (strOf "/w") 3 childFilePath (strOf "Child") (strOf "id")
        (strOf "k") [] false).1 = some (parentFilePath, 44) := by
  refine ⟨?_, by decide⟩
  simp only [findPropertyInFile]
  rw [forceOriginalPath_false]
  rw [hread]
  simp only [hfound, hnomatch, hext]
  by_cases hbs : containsSub parentClass (strOf "\\") = true
  · simp [hbs] at hresolve
    simp [hbs, hresolve]
  · simp only [Bool.not_eq_true] at hbs
    simp [hbs] at hresolve
    simp [hbs, hresolve]

/-- The first component of `findPropertyInFile` does not depend on the cache
key or cache contents (the cache is write-only inside it). -/
theorem findPropertyInFile_fst_indep (fs : FS) (root : Str) :
    ∀ (fuel : Nat) (p cn prop k : Str) (cache : PropCache) (k' : Str)
      (cache' : PropCache) (f : Bool),
    (findPropertyInFile fs root fuel p cn prop k cache f).1 =
    (findPropertyInFile fs root fuel p cn prop k' cache' f).1 := by
  intro fuel
  induction fuel with
  | zero => intros; rfl
  | succ n ih =>
    intro p cn prop k cache k' cache' f
    simp only [findPropertyInFile]
    rcases hr : fsRead fs (forceOriginalPath fs f p) with _ | content
    · rfl
    · by_cases hcf : classFound content cn = true
      · simp only [hcf]
        rcases hidx : firstPatternIdx prop (classContentOf content cn).1 with _ | i
        · rcases hext : extendsCapture (classContentOf content cn).1 with _ | pcl
          · simp
          · by_cases hbs : containsSub pcl (strOf "\\") = true
            · rcases hff : findClassFileFromNamespaceFast fs root pcl with _ | pf
              · simp [hbs, hff]
              · simp [hbs, hff]
                exact ih _ _ _ _ _ _ _ _
            · simp only [Bool.not_eq_true] at hbs
              rcases hpu : firstParentViaUse fs root pcl (extractUseStatements content) with _ | pf
              · simp [hbs, hpu]
              · simp [hbs, hpu]
                exact ih _ _ _ _ _ _ _ _
        · simp
      · simp only [Bool.not_eq_true] at hcf
        simp [hcf]

/-- The candidate loop returns the first candidate for which
`findPropertyInFile` succeeds. -/
theorem candidateLoop_firstSome (fs : FS) (root : Str) (fuel : Nat)
    (file cn key : Str) :
    ∀ (cands : List Str) (cache : PropCache),
    (candidateLoop fs root fuel file cn key cands cache).1 =
      firstSome (cands.map (fun c =>
        (findPropertyInFile fs root fuel file cn c (key ++ strOf "_" ++ c) [] true).1)) := by
  intro cands
  induction cands with
  | nil => intro cache; rfl
  | cons c r ih =>
    intro cache
    simp only [candidateLoop, List.map_cons, firstSome]
    rw [findPropertyInFile_fst_indep fs root fuel file cn c (key ++ strOf "_" ++ c) cache
      (key ++ strOf "_" ++ c) []]
    rcases hres : (findPropertyInFile fs root fuel file cn c (key ++ strOf "_" ++ c) [] true).1
      with _ | loc
    · simp only []
      exact ih _
    · rfl

/-- C1: inside a proxy file the candidates are tried strictly in confidence
order — sidecar field name first, then the convention-derived variants,
de-duplicated — and the first candidate located wins; the sidecar mapping
`getCode -> internalCode` resolves to `internalCode` ahead of the
convention-derived `code`. -/
theorem handleProxyFileNavigation_candidate_order
    (jsonParse : MetaJsonParse) (fs : FS) (root : Str) (fuel : Nat)
    (cfc : ClassFileCache) (pc : PropCache)
    (word propertyName currentFilePath cacheKey : Str)
    (info : ProxyClassInfo) (origFile content : Str)
    (hparse : parseHyperfProxyFileName (baseNamePhp currentFilePath) = some info)
    (hfound : (findOriginalClassFromNamespace fs root cfc info).1 = some origFile)
    (hread : fsRead fs origFile = some content) :
    ((handleProxyFileNavigation jsonParse fs root fuel cfc pc word propertyName
        currentFilePath cacheKey).1
      = firstSome ((buildSearchCandidates
            ((loadPropertyMappingFromMeta jsonParse fs currentFilePath word).map
              (fun m => m.fieldName))
            (generatePropertyNameVariants word (parseNamingConvention content))).map
          (fun c => (findPropertyInFile fs root fuel origFile info.className c
              (cacheKey ++ strOf "_" ++ c) [] true).1))) ∧
    (∀ f vs, (buildSearchCandidates (some f) vs).head? = some f) ∧
    (∀ vs, buildSearchCandidates none vs = insertionDedup vs) ∧
    (∀ mf vs, (buildSearchCandidates mf vs).Sublist (mf.toList ++ vs)) ∧
    buildSearchCandidates (some (strOf "internalCode"))
        (generatePropertyNameVariants (strOf "getCode") 1)
      = [strOf "internalCode", strOf "code"] ∧
    (handleProxyFileNavigation c1parse c1fs (strOf "/w") 3 [] [] (strOf "getCode")
        (strOf "code") c1proxyPath (strOf "CK")).1 = some (c1widgetPath, 43) ∧
    (findPropertyInFile c1fs (strOf "/w") 3 c1widgetPath (strOf "Widget")
        (strOf "internalCode") (strOf "CK_internalCode") [] true).1
      = some (c1widgetPath, 43) ∧
    (findPropertyInFile c1fs (strOf "/w") 3 c1widgetPath (strOf "Widget")
        (strOf "code") (strOf "CK_code") [] true).1 = some (c1widgetPath, 65) := by
  refine ⟨?_, ?_, ?_, ?_, by decide, by decide, by decide, by decide⟩
  · unfold handleProxyFileNavigation
    dsimp only
    rw [hparse]
    dsimp only
    rw [hfound]
    dsimp only
    rw [hread]
    exact candidateLoop_firstSome fs root fuel origFile info.className cacheKey _ pc
  · intro f vs
    simp [buildSearchCandidates, insertionDedup, dedupKeep]
  · intro vs
    rfl
  · intro mf vs
    rcases mf with _ | f
    · simpa using dedupKeep_sublist [] vs
    · simpa [buildSearchCandidates] using dedupKeep_sublist [] (f :: vs)

/-- C1 witness: the sidecar scenario instantiating every hypothesis. -/
theorem handleProxyFileNavigation_candidate_order_witness :
    fsRead c1fs c1widgetPath = some c1widgetContent ∧
    (handleProxyFileNavigation c1parse c1fs (strOf "/w") 3 [] [] (strOf "getCode")
        (strOf "code") c1proxyPath (strOf "CK")).1
      = firstSome ((buildSearchCandidates
            ((loadPropertyMappingFromMeta c1parse c1fs c1proxyPath (strOf "getCode")).map
              (fun m => m.fieldName))
            (generatePropertyNameVariants (strOf "getCode")
              (parseNamingConvention c1widgetContent))).map
          (fun c => (findPropertyInFile c1fs (strOf "/w") 3 c1widgetPath (strOf "Widget") c
              (strOf "CK" ++ strOf "_" ++ c) [] true).1)) :=
  ⟨by decide,
   (handleProxyFileNavigation_candidate_order c1parse c1fs (strOf "/w") 3 [] []
     (strOf "getCode") (strOf "code") c1proxyPath (strOf "CK")
     { className := strOf "Widget", fullClassName := strOf "App\\Domain\\Widget",
       namespaceName := strOf "App\\Domain" }
     c1widgetPath c1widgetContent (by decide) (by decide) (by decide)).1⟩

/-- C5: the resolution cache can never serve the second call.  The keys the
candidate loop stores (`cacheKey_candidate`) always differ from the key the
provider looks up (`path:word`), so a repeated resolution recomputes; the
two results are still identical (the pipeline is a pure function of the
unchanged file system), which is what the first call stored. -/
theorem provideDefinition_second_call_not_cached :
    (∀ k c : Str, k ++ strOf "_" ++ c ≠ k) ∧
    ((provideDefinition noParse c5fs (strOf "/w") noHandler 3 ⟨[], []⟩ c5proxyPath
        (strOf "getCode") []).1 = some (strOf "/w/app/Widget.php", 21) ∧
     (provideDefinition noParse c5fs (strOf "/w") noHandler 3
        (provideDefinition noParse c5fs (strOf "/w") noHandler 3 ⟨[], []⟩ c5proxyPath
          (strOf "getCode") []).2.1 c5proxyPath (strOf "getCode") []).1
       = some (strOf "/w/app/Widget.php", 21) ∧
     (provideDefinition noParse c5fs (strOf "/w") noHandler 3 ⟨[], []⟩ c5proxyPath
        (strOf "getCode") []).2.2 = false ∧
     (provideDefinition noParse c5fs (strOf "/w") noHandler 3
        (provideDefinition noParse c5fs (strOf "/w") noHandler 3 ⟨[], []⟩ c5proxyPath
          (strOf "getCode") []).2.1 c5proxyPath (strOf "getCode") []).2.2 = false ∧
     (provideDefinition noParse c5fs (strOf "/w") noHandler 3 ⟨[], []⟩ c5proxyPath
        (strOf "getCode") []).2.1.propCache
       = [(c5proxyPath ++ strOf ":" ++ strOf "getCode" ++ strOf "_" ++ strOf "code",
           [(strOf "code", (strOf "/w/app/Widget.php", 21))])]) := by
  constructor
  · intro k c hEq
    have hlen := congrArg List.length hEq
    rw [List.length_append, List.length_append] at hlen
    have hone : (strOf "_").length = 1 := by decide
    omega
  · refine ⟨by decide, by decide, by decide, by decide, by decide⟩

/-- C10: the classifier checks only the literal `get`/`set` prefix — a word
like `settings` proceeds into accessor resolution with derived candidate
`tings` — while a word without the prefix is rejected with `null` before any
cache lookup or search, for every handler and state. -/
theorem provideDefinition_prefix_only :
    (∀ (jsonParse : MetaJsonParse) (fs : FS) (root : Str)
       (handler : Str → Str → Option Loc) (fuel : Nat) (st : NavState)
       (p w before : Str), wordIsAccessor w = false →
      provideDefinition jsonParse fs root handler fuel st p w before = (none, st, false)) ∧
    wordIsAccessor (strOf "settings") = true ∧
    derivedPropertyName (strOf "settings") = strOf "tings" ∧
    (∀ (jsonParse : MetaJsonParse) (fs : FS) (root : Str)
       (handler : Str → Str → Option Loc) (fuel : Nat) (st : NavState) (p before : Str),
      isHyperfProxyFile fs p = false → isMethodCallOf before = true →
      pcacheLookup st.propCache (p ++ strOf ":" ++ strOf "settings") = none →
      provideDefinition jsonParse fs root handler fuel st p (strOf "settings") before
        = (handler (strOf "settings") (strOf "tings"), st, false)) ∧
    wordIsAccessor (strOf "calculate") = false := by
  refine ⟨?_, by decide, by decide, ?_, by decide⟩
  · intro jsonParse fs root handler fuel st p w before hw
    unfold provideDefinition
    simp [hw]
  · intro jsonParse fs root handler fuel st p before hproxy hcall hcache
    unfold provideDefinition
    rw [if_neg (by simp [wordIsAccessor]; decide)]
    dsimp only
    rw [hcache]
    simp [hproxy, hcall, show derivedPropertyName (strOf "settings") = strOf "tings" from by decide]

/-- C10 witness: `settings` with a method-call context and empty caches. -/
theorem provideDefinition_prefix_only_witness :
    isHyperfProxyFile [] (strOf "/x.php") = false ∧
    isMethodCallOf (strOf "$a->") = true ∧
    pcacheLookup ([] : PropCache) (strOf "/x.php" ++ strOf ":" ++ strOf "settings") = none ∧
    provideDefinition noParse [] (strOf "/w") noHandler 3 ⟨[], []⟩ (strOf "/x.php")
        (strOf "settings") (strOf "$a->")
      = (noHandler (strOf "settings") (strOf "tings"), ⟨[], []⟩, false) :=
  ⟨by decide, by decide, by decide,
   (provideDefinition_prefix_only).2.2.2.1 noParse [] (strOf "/w") noHandler 3 ⟨[], []⟩
     (strOf "/x.php") (strOf "$a->") (by decide) (by decide) (by decide)⟩

/-- C6: no resolution operation escalates a failure.  The metadata loader
returns `.ok` for every input and every parser; a failed read or parse of
one sidecar document falls through to the next (concretely, a malformed
first document does not hide a valid second one); an unreadable class file
makes `findPropertyInFile` answer `Absent`; a proxy resolution whose
original class file cannot be read degrades to the default candidate pair
rather than failing. -/
theorem resolution_never_raises :
    (∀ (jsonParse : MetaJsonParse) (fs : FS) (p m : Str),
      ∃ v, loadPropertyMappingFromMetaE jsonParse fs p m = .ok v) ∧
    (∀ (jsonParse : MetaJsonParse) (fs : FS) (metaDir methodName f : Str)
       (r : List Str),
      (fsReadE fs (joinPath [metaDir, f])).bind jsonParse = .error () →
      metaLoop jsonParse fs metaDir methodName (f :: r)
        = metaLoop jsonParse fs metaDir methodName r) ∧
    (∀ (fs : FS) (p m : Str), loadPropertyMappingFromMeta noParse fs p m = none) ∧
    (∀ (fs : FS) (root : Str) (fuel : Nat) (p cn prop k : Str) (cache : PropCache)
       (f : Bool),
      fsRead fs (forceOriginalPath fs f p) = none →
      findPropertyInFile fs root (fuel + 1) p cn prop k cache f = (none, cache)) ∧
    (metaLoop c1parse c6fs (strOf "/w/.php-accessor/proxy/meta") (strOf "getCode")
        [strOf "a.json", strOf "b.json"]
      = some { methodName := strOf "getCode", fieldName := strOf "internalCode" }) ∧
    (∀ (jsonParse : MetaJsonParse) (fs : FS) (root : Str) (fuel : Nat)
       (cfc : ClassFileCache) (pc : PropCache)
       (word propertyName currentFilePath cacheKey origFile : Str)
       (info : ProxyClassInfo),
      parseHyperfProxyFileName (baseNamePhp currentFilePath) = some info →
      (findOriginalClassFromNamespace fs root cfc info).1 = some origFile →
      fsRead fs origFile = none →
      (handleProxyFileNavigation jsonParse fs root fuel cfc pc word propertyName
          currentFilePath cacheKey).1
        = (candidateLoop fs root fuel origFile info.className cacheKey
            (buildSearchCandidates
              ((loadPropertyMappingFromMeta jsonParse fs currentFilePath word).map
                (fun m => m.fieldName))
              [propertyName, camelToSnakeCase propertyName]) pc).1) := by
  refine ⟨?_, ?_, ?_, ?_, by decide, ?_⟩
  · intro jsonParse fs p m
    unfold loadPropertyMappingFromMetaE
    by_cases hd : dirExists fs (joinPath [dirname (dirname p), strOf "meta"]) = true
    · simp [hd]
    · simp only [Bool.not_eq_true] at hd
      simp [hd]
  · intro jsonParse fs metaDir methodName f r herr
    conv_lhs => unfold metaLoop
    dsimp only
    rw [herr]
  · intro fs p m
    unfold loadPropertyMappingFromMeta
    have h1 : ∀ (md : Str) (mn : Str) (l : List Str),
        metaLoop noParse fs md mn l = none := by
      intro md mn l
      induction l with
      | nil => rfl
      | cons f r ih =>
        unfold metaLoop
        rcases hr : fsReadE fs (joinPath [md, f]) with _ | c
        · simpa [hr, Except.bind] using ih
        · simpa [hr, Except.bind, noParse] using ih
    unfold loadPropertyMappingFromMetaE
    by_cases hd : dirExists fs (joinPath [dirname (dirname p), strOf "meta"]) = true
    · simp [hd, h1]
    · simp only [Bool.not_eq_true] at hd
      simp [hd]
  · intro fs root fuel p cn prop k cache f hread
    unfold findPropertyInFile
    dsimp only
    rw [hread]
  · intro jsonParse fs root fuel cfc pc word propertyName currentFilePath cacheKey
      origFile info hparse hfound hread
    unfold handleProxyFileNavigation
    dsimp only
    rw [hparse]
    dsimp only
    rw [hfound]
    dsimp only
    rw [hread]

/-- C6 witness: the loader is `.ok` on the fall-through scenario, and the
degraded case evaluates on an original file the system cannot read. -/
theorem resolution_never_raises_witness :
    loadPropertyMappingFromMetaE c1parse c6fs
        (strOf "/w/.php-accessor/proxy/accessor/_Proxy_App_WidgetAccessor.php")
        (strOf "getCode")
      = .ok (some { methodName := strOf "getCode", fieldName := strOf "internalCode" }) ∧
    (fsReadE c6fs (joinPath [strOf "/w/.php-accessor/proxy/meta", strOf "a.json"])).bind
        c1parse = .error () ∧
    metaLoop c1parse c6fs (strOf "/w/.php-accessor/proxy/meta") (strOf "getCode")
        [strOf "a.json", strOf "b.json"]
      = metaLoop c1parse c6fs (strOf "/w/.php-accessor/proxy/meta") (strOf "getCode")
        [strOf "b.json"] :=
  ⟨by rfl, by rfl,
   (resolution_never_raises).2.1 c1parse c6fs (strOf "/w/.php-accessor/proxy/meta")
     (strOf "getCode") (strOf "a.json") [strOf "b.json"] (by rfl)⟩

/-- C2 counterexample: with both annotations present, the claimed 15-line
backward window would infer `Beta` (nearest annotation, 12 lines up), but
the method-call pipeline's window is 10 lines (part_001:389), so the code
falls through to the whole-file annotation search and infers `Alpha`
instead. -/
theorem inferTypeWindow_counterexample :
    (claimPotentialTypes c2doc 15 (strOf "$x")).map (fun p => p.type)
      = [strOf "Beta"] ∧
    (handleMethodCallPotentialTypes c2doc 15 (strOf "$x")).map (fun p => p.type)
      = [strOf "Alpha"] ∧
    strOf "Beta" ≠ strOf "Alpha" :=
  ⟨by decide, by decide, by decide⟩

/-- C2 (amended): the method-call type-inference strategies contribute
candidates in strict priority order — the backward annotation search over a
10-line window, else the whole-file annotation search, then the
instantiation search, then the parameter-pattern search — the first
successful strategy supplying the head candidate; each resolved short type
name is expanded through the use-alias table and returned unchanged when no
alias matches. -/
theorem inferPotentialTypes_priority (doc : List Str) (li : Nat) (obj : Str) :
    (∀ t, annotationBackScan doc obj li 10 = some t →
      (handleMethodCallPotentialTypes doc li obj).head? =
        some { type := t, source := strOf "phpDoc",
               fullClassName :=
                 resolveFullClassNameList t (extractUseStatements (joinLines doc)) }) ∧
    (∀ t, annotationBackScan doc obj li 10 = none →
      findObjectTypeFromVarComment (joinLines doc) obj = some t →
      (handleMethodCallPotentialTypes doc li obj).head? =
        some { type := t, source := strOf "globalPhpDoc",
               fullClassName :=
                 resolveFullClassNameList t (extractUseStatements (joinLines doc)) }) ∧
    (∀ t, annotationBackScan doc obj li 10 = none →
      findObjectTypeFromVarComment (joinLines doc) obj = none →
      findObjectTypeFromNew (joinLines doc) obj = some t →
      (handleMethodCallPotentialTypes doc li obj).head? =
        some { type := t, source := strOf "new",
               fullClassName :=
                 resolveFullClassNameList t (extractUseStatements (joinLines doc)) }) ∧
    (∀ t, annotationBackScan doc obj li 10 = none →
      findObjectTypeFromVarComment (joinLines doc) obj = none →
      findObjectTypeFromNew (joinLines doc) obj = none →
      findObjectTypeFromFunctionParams (joinLines doc) obj = some t →
      (handleMethodCallPotentialTypes doc li obj).head? =
        some { type := t, source := strOf "param",
               fullClassName :=
                 resolveFullClassNameList t (extractUseStatements (joinLines doc)) }) ∧
    (annotationBackScan doc obj li 10 = none →
      findObjectTypeFromVarComment (joinLines doc) obj = none →
      findObjectTypeFromNew (joinLines doc) obj = none →
      findObjectTypeFromFunctionParams (joinLines doc) obj = none →
      handleMethodCallPotentialTypes doc li obj = []) ∧
    (∀ t us, containsSub t (strOf "\\") = false →
      us.find? (fun u => u.className = t) = none →
      resolveFullClassNameList t us = t) ∧
    (∀ t us u, containsSub t (strOf "\\") = false →
      us.find? (fun u => u.className = t) = some u →
      resolveFullClassNameList t us = u.fullPath) := by
  refine ⟨?_, ?_, ?_, ?_, ?_, ?_, ?_⟩
  · intro t h1
    unfold handleMethodCallPotentialTypes inferPotentialTypes
    simp [h1]
  · intro t h1 h2
    unfold handleMethodCallPotentialTypes inferPotentialTypes
    simp [h1, h2]
  · intro t h1 h2 h3
    unfold handleMethodCallPotentialTypes inferPotentialTypes
    simp [h1, h2, h3]
  · intro t h1 h2 h3 h4
    unfold handleMethodCallPotentialTypes inferPotentialTypes
    simp [h1, h2, h3, h4]
  · intro h1 h2 h3 h4
    unfold handleMethodCallPotentialTypes inferPotentialTypes
    simp [h1, h2, h3, h4]
  · intro t us hbs hfind
    unfold resolveFullClassNameList
    simp [hbs, hfind]
  · intro t us u hbs hfind
    unfold resolveFullClassNameList
    simp [hbs, hfind]

/-- C2 witness: the near-annotation document instantiates the
first-priority strategy. -/
theorem inferPotentialTypes_priority_witness :
    annotationBackScan c2docNear (strOf "$y") 1 10 = some (strOf "Gamma") ∧
    (handleMethodCallPotentialTypes c2docNear 1 (strOf "$y")).head? =
      some { type := strOf "Gamma", source := strOf "phpDoc",
             fullClassName :=
               resolveFullClassNameList (strOf "Gamma")
                 (extractUseStatements (joinLines c2docNear)) } :=
  ⟨by decide,
   (inferPotentialTypes_priority c2docNear 1 (strOf "$y")).1 (strOf "Gamma") (by decide)⟩

/-- C4 witness: the `Child`/`ParentC` scenario instantiating every
hypothesis. -/
theorem findPropertyInFile_parent_recursion_witness :
    fsRead inheritFS childFilePath = some childContent ∧
    (findPropertyInFile inheritFS (strOf "/w") 3 childFilePath (strOf "Child") (strOf "id")
        (strOf "k") [] false =
      findPropertyInFile inheritFS (strOf "/w") 2 parentFilePath
        (if containsSub (strOf "ParentC") (strOf "\\") then lastSegmentOr (strOf "ParentC")
         else strOf "ParentC")
        (strOf "id") (strOf "k" ++ strOf "::parent") [] false) :=
  ⟨by decide,
   (findPropertyInFile_parent_recursion inheritFS (strOf "/w") 2 childFilePath (strOf "Child")
     (strOf "id") (strOf "k") [] childContent (strOf "ParentC") parentFilePath
     (by decide) (by decide) (by decide) (by decide) (by decide)).1⟩

end PhpAccessor
